import Mathlib

/-!
Verification of the audio-stream composition engine in `audio/audiostream.cpp`
(ScummVM). Wrapper streams (looping, sub-looping, sub-seekable, limiting,
queuing) are embedded shallowly: a parent stream is a transition system over an
abstract state type, buffers become lists of delivered samples, and the C++
`readBuffer` loops/recursions become fuel-indexed structural recursions (the
fuel strictly bounds the recursion depth actually used by the concrete stream
models below, and is never exhausted in any theorem proved here).
-/

namespace ScummVM.Audio

/-- Wrap-around modulus of the C++ 32-bit unsigned counters. -/
def U32 : Nat := 2 ^ 32

/-- Signed range bound of a C++ 32-bit `int`. -/
def I31 : Nat := 2 ^ 31

/-! ## Timestamp

Modelled from the spec: `common/timestamp.h` / `common/timestamp.cpp` are not
under `src/` (only their caller `audio/audiostream.cpp` is). Per spec section 3,
a `Timestamp` is "an exact playback position expressible either as (seconds,
milliseconds-fraction) or as (frame-count, frame-rate); convertible between the
two without drift beyond declared rounding". We model it as an exact (possibly
fractional, sub-frame precise) rational frame count at an integer framerate;
the playback time in seconds it denotes is `numFrames / framerate`. -/
structure Timestamp where
  numFrames : ℚ
  framerate : ℕ
deriving DecidableEq, Repr

/-- Modelled from the spec: the integer frame count of a timestamp, dropping
any sub-frame fractional component (floor). -/
def Timestamp.totalNumberOfFrames (t : Timestamp) : ℤ :=
  ⌊t.numFrames⌋

/-- Modelled from the spec: exact (drift-free) conversion of a timestamp to a
new framerate; the resulting frame count may be fractional. -/
def Timestamp.convertToFramerate (t : Timestamp) (r : ℕ) : Timestamp :=
  ⟨t.numFrames * r / t.framerate, r⟩

/-- Modelled from the spec: advance (or rewind, for negative `d`) a timestamp
by an integer number of frames at its own framerate. -/
def Timestamp.addFrames (t : Timestamp) (d : ℤ) : Timestamp :=
  ⟨t.numFrames + d, t.framerate⟩

/-- Modelled from the spec: the whole seconds of a timestamp (its integer
frame count divided by the framerate). -/
def Timestamp.secs (t : Timestamp) : ℤ :=
  t.totalNumberOfFrames / (t.framerate : ℤ)

/-- Modelled from the spec: the integer frame remainder within the current
second. -/
def Timestamp.numberOfFrames (t : Timestamp) : ℤ :=
  t.totalNumberOfFrames % (t.framerate : ℤ)

/-- Modelled from the spec: build a frame-precise timestamp from integer
seconds plus an integer frame remainder at rate `r`. -/
def Timestamp.ofSecsFrames (s : ℤ) (f : ℤ) (r : ℕ) : Timestamp :=
  ⟨((s * r + f : ℤ) : ℚ), r⟩

/-- Modelled from the spec: comparison of the exact playback times denoted by
two timestamps (cross-multiplied to avoid division). -/
def tsLt (a b : Timestamp) : Prop :=
  a.numFrames * b.framerate < b.numFrames * a.framerate

/-- Modelled from the spec: `a` denotes a time no later than `b`. -/
def tsLe (a b : Timestamp) : Prop :=
  a.numFrames * b.framerate ≤ b.numFrames * a.framerate

/-- Modelled from the spec: `a` and `b` denote the same playback time. -/
def tsEq (a b : Timestamp) : Prop :=
  a.numFrames * b.framerate = b.numFrames * a.framerate

instance (a b : Timestamp) : Decidable (tsLt a b) := by unfold tsLt; infer_instance
instance (a b : Timestamp) : Decidable (tsLe a b) := by unfold tsLe; infer_instance
instance (a b : Timestamp) : Decidable (tsEq a b) := by unfold tsEq; infer_instance

/-- Modelled from the spec: sum of two timestamps, as used in
`SubSeekableAudioStream::seek` where both operands carry the same framerate. -/
def tsAdd (a b : Timestamp) : Timestamp :=
  ⟨a.numFrames + b.numFrames, a.framerate⟩

/-- Modelled from the spec: difference of two timestamps, as used in the
`SubSeekableAudioStream` constructor where both operands carry the same
framerate. -/
def tsSub (a b : Timestamp) : Timestamp :=
  ⟨a.numFrames - b.numFrames, a.framerate⟩

/-- Modelled from the spec: `a.frameDiff b`, the integer number of frames
separating two (same-framerate) timestamps. -/
def Timestamp.frameDiff (a b : Timestamp) : ℤ :=
  ⌊a.numFrames - b.numFrames⌋

/-- `convertTimeToStreamPos` of `audio/audiostream.cpp:407`: convert `whereT`
to framerate `rate * channels`; if stereo and the integer sample count is odd,
cut off one sample; finally rebuild the timestamp from integer seconds and
integer frame remainder, which drops any sub-frame fraction (rounds down). -/
def convertTimeToStreamPos (whereT : Timestamp) (rate : ℕ) (isStereo : Bool) : Timestamp :=
  let result := whereT.convertToFramerate (rate * (if isStereo then 2 else 1))
  let result2 := if isStereo = true ∧ result.totalNumberOfFrames % 2 = 1 then
      result.addFrames (-1)
    else result
  Timestamp.ofSecsFrames result2.secs result2.numberOfFrames result2.framerate

/-! ## Abstract stream interfaces

`AudioStream` / `RewindableAudioStream` / `SeekableAudioStream` are C++
abstract classes; a wrapper stream holds a `_parent` pointer and calls its
virtual methods. We embed a parent stream as a state type `σ` together with a
record of its operations. `read s n` returns the list of delivered samples
(length at most the request, for any well-behaved stream) and the successor
state; `rewind`/`seek` return the C++ `bool` success flag and the successor
state. -/
structure AudioSource (σ : Type) where
  read : σ → Nat → List Int × σ
  endOfData : σ → Bool
  endOfStream : σ → Bool
  rate : ℕ
  stereo : Bool

/-- A rewindable parent stream: `AudioSource` plus `rewind`. -/
structure RewindableSource (σ : Type) extends AudioSource σ where
  rewind : σ → Bool × σ

/-- A seekable parent stream: rewindable plus `seek` and `getLength`. -/
structure SeekableSource (σ : Type) extends RewindableSource σ where
  seek : σ → Timestamp → Bool × σ
  getLength : σ → Timestamp

/-! ## A concrete finite parent stream

The canonical finite parent: a fixed list of samples and a cursor. A single
pass delivers the samples in order; `endOfStream` holds once the cursor has
passed the last sample; `rewind`/`seek` succeed or fail according to the
`rewindOk`/`seekOk` flags (a failing parent leaves its state unchanged and
reports `false`, which is all the wrappers ever observe of a failure). -/
structure ListStream where
  data : List Int
  pos : Nat
  rewindOk : Bool
  seekOk : Bool
deriving DecidableEq, Repr

/-- One read from a list-backed stream: deliver up to `n` samples from the
cursor and advance it. -/
def listRead (s : ListStream) (n : Nat) : List Int × ListStream :=
  let out := (s.data.drop s.pos).take n
  (out, { s with pos := s.pos + out.length })

/-- The operations record of a list-backed seekable stream. The length is
reported in frames at rate `rate` (samples divided by the channel count), and
a seek moves the cursor to the timestamp's integer frame count, which at the
stream-position framerate `rate * channels` is an interleaved sample index. -/
def listSource (rate : ℕ) (stereo : Bool) : SeekableSource ListStream :=
  { read := listRead
    endOfData := fun s => decide (s.data.length ≤ s.pos)
    endOfStream := fun s => decide (s.data.length ≤ s.pos)
    rate := rate
    stereo := stereo
    rewind := fun s => if s.rewindOk then (true, { s with pos := 0 }) else (false, s)
    seek := fun s t =>
      if s.seekOk then (true, { s with pos := t.totalNumberOfFrames.toNat }) else (false, s)
    getLength := fun s =>
      ⟨(s.data.length : ℚ) / (if stereo then 2 else 1), rate⟩ }

/-! ## LoopingAudioStream (`audio/audiostream.cpp:95`) -/

/-- The mutable state of a `LoopingAudioStream`: the owned parent stream state,
`_loops` and `_completeIterations` (both C++ `uint`). -/
structure LoopingState (σ : Type) where
  s : σ
  loops : Nat
  completeIterations : Nat
deriving DecidableEq, Repr

/-- The `LoopingAudioStream` constructor (`audiostream.cpp:95`): optionally
rewind the parent; if that rewind fails, or the parent is (then) already at
end-of-stream, collapse `_loops = _completeIterations = 1`.

Modelled from the spec: the C++ calls `error(...)` on the failed rewind;
per spec section 7 such transient playback errors are "reported via a
non-fatal diagnostic" and execution continues, so `error` is a no-op here. -/
def LoopingAudioStream.construct {σ : Type} (ops : RewindableSource σ) (s₀ : σ)
    (loops : Nat) (rewind : Bool) : LoopingState σ :=
  let rw := if rewind then ops.rewind s₀ else (true, s₀)
  let li : Nat × Nat := if rewind = true ∧ rw.1 = false then (1, 1) else (loops, 0)
  if ops.endOfStream rw.2 then ⟨rw.2, 1, 1⟩ else ⟨rw.2, li.1, li.2⟩

/-- Body of `LoopingAudioStream::readBuffer` (`audiostream.cpp:112`), with the
C++ self-recursion made structural on an explicit `fuel` bound (the wrapper
below supplies fuel exceeding every recursion depth reachable with a
list-backed parent). The increment of `_completeIterations` wraps at `2^32`
like the C++ `uint`. -/
def LoopingAudioStream.readBufferAux {σ : Type} (ops : RewindableSource σ) :
    Nat → LoopingState σ → Nat → List Int × LoopingState σ
  | 0, st, _ => ([], st)
  | fuel + 1, st, n =>
    if (st.loops ≠ 0 ∧ st.completeIterations = st.loops) ∨ n = 0 then ([], st)
    else
      let r := ops.read st.s n
      if ops.endOfStream r.2 then
        let iters' := (st.completeIterations + 1) % U32
        if iters' = st.loops then (r.1, ⟨r.2, st.loops, iters'⟩)
        else
          let rem := n - r.1.length
          let rw := ops.rewind r.2
          if rw.1 = false then (r.1, ⟨rw.2, iters', iters'⟩)
          else
            let st' : LoopingState σ :=
              if ops.endOfStream rw.2 then ⟨rw.2, iters', iters'⟩
              else ⟨rw.2, st.loops, iters'⟩
            let rest := LoopingAudioStream.readBufferAux ops fuel st' rem
            (r.1 ++ rest.1, rest.2)
      else (r.1, ⟨r.2, st.loops, st.completeIterations⟩)

/-- `LoopingAudioStream::readBuffer`: one call, requesting `n` samples. -/
def LoopingAudioStream.readBuffer {σ : Type} (ops : RewindableSource σ)
    (st : LoopingState σ) (n : Nat) : List Int × LoopingState σ :=
  LoopingAudioStream.readBufferAux ops (n + 2) st n

/-- `LoopingAudioStream::endOfData` (`audiostream.cpp:141`). -/
def LoopingAudioStream.endOfData {σ : Type} (ops : RewindableSource σ)
    (st : LoopingState σ) : Bool :=
  decide (st.loops ≠ 0 ∧ st.completeIterations = st.loops) || ops.endOfData st.s

/-- `LoopingAudioStream::endOfStream` (`audiostream.cpp:145`). -/
def LoopingAudioStream.endOfStream {σ : Type} (st : LoopingState σ) : Bool :=
  decide (st.loops ≠ 0 ∧ st.completeIterations = st.loops)

/-- A sequence of `readBuffer` calls (the mixer's pull loop): returns the
concatenated delivered samples and the final state. -/
def LoopingAudioStream.run {σ : Type} (ops : RewindableSource σ) :
    LoopingState σ → List Nat → List Int × LoopingState σ
  | st, [] => ([], st)
  | st, n :: rest =>
    let r := LoopingAudioStream.readBuffer ops st n
    let r2 := LoopingAudioStream.run ops r.2 rest
    (r.1 ++ r2.1, r2.2)

/-- Result of the factory `makeLoopingAudioStream(RewindableAudioStream *, uint)`
(`audiostream.cpp:149`): either the unwrapped input stream or a freshly
constructed `LoopingAudioStream` around it. -/
inductive LoopingStreamResult (σ : Type) where
  | plain (s : σ)
  | looped (st : LoopingState σ)
deriving DecidableEq, Repr

/-- `makeLoopingAudioStream(stream, loops)` (`audiostream.cpp:149`): wrap in a
`LoopingAudioStream` only when `loops != 1`, else return the stream itself.

Modelled from the spec: the constructor's defaulted arguments live in the
header `audio/audiostream.h`, which is not under `src/`; the initial rewind
is requested by default (spec 4.4 describes construction as performing the
caller-requested initial rewind). -/
def makeLoopingAudioStream {σ : Type} (ops : RewindableSource σ) (s : σ)
    (loops : Nat) : LoopingStreamResult σ :=
  if loops ≠ 1 then .looped (LoopingAudioStream.construct ops s loops true)
  else .plain s

/-- `endOfStream` of a factory result: the wrapper's own when wrapped, the
parent's own when the factory returned the input unwrapped. -/
def LoopingStreamResult.eosR {σ : Type} (ops : RewindableSource σ) :
    LoopingStreamResult σ → Bool
  | .plain s => ops.endOfStream s
  | .looped st => LoopingAudioStream.endOfStream st

/-- `endOfData` of a factory result. -/
def LoopingStreamResult.eodR {σ : Type} (ops : RewindableSource σ) :
    LoopingStreamResult σ → Bool
  | .plain s => ops.endOfData s
  | .looped st => LoopingAudioStream.endOfData ops st

/-! ## SubSeekableAudioStream (`audio/audiostream.cpp:242`) -/

/-- State of a `SubSeekableAudioStream`: parent state, `_start`, `_pos` and
`_length` (all frame-precise timestamps at framerate `rate * channels`). -/
structure SubSeekableState (σ : Type) where
  s : σ
  start : Timestamp
  pos : Timestamp
  length : Timestamp
deriving DecidableEq, Repr

/-- The `SubSeekableAudioStream` constructor (`audiostream.cpp:242`): convert
the bounds, record `length = end - start`, seek the parent to `start`
(the C++ ignores the seek's success here). -/
def SubSeekable.construct {σ : Type} (ops : SeekableSource σ) (s₀ : σ)
    (startT endT : Timestamp) : SubSeekableState σ :=
  let startP := convertTimeToStreamPos startT ops.rate ops.stereo
  let lengthP := tsSub (convertTimeToStreamPos endT ops.rate ops.stereo) startP
  let sk := ops.seek s₀ startP
  ⟨sk.2, startP, ⟨0, ops.rate * (if ops.stereo then 2 else 1)⟩, lengthP⟩

/-- `SubSeekableAudioStream::readBuffer` (`audiostream.cpp:252`): read at most
`min(_length.frameDiff(_pos), numSamples)` from the parent and advance
`_pos` by the frames actually read. -/
def SubSeekable.readBuffer {σ : Type} (ops : SeekableSource σ)
    (st : SubSeekableState σ) (n : Nat) : List Int × SubSeekableState σ :=
  let framesLeft : ℤ := min (st.length.frameDiff st.pos) (n : ℤ)
  let r := ops.read st.s framesLeft.toNat
  (r.1, { st with s := r.2, pos := st.pos.addFrames r.1.length })

/-- `SubSeekableAudioStream::seek` (`audiostream.cpp:259`): convert the target;
if it exceeds `_length`, pin `_pos` at `_length` and fail without touching the
parent; otherwise seek the parent to `_pos + _start`, pinning `_pos` at
`_length` on parent failure. -/
def SubSeekable.seek {σ : Type} (ops : SeekableSource σ)
    (st : SubSeekableState σ) (whereT : Timestamp) : Bool × SubSeekableState σ :=
  let pos' := convertTimeToStreamPos whereT ops.rate ops.stereo
  if tsLt st.length pos' then (false, { st with pos := st.length })
  else
    let sk := ops.seek st.s (tsAdd pos' st.start)
    if sk.1 then (true, { st with s := sk.2, pos := pos' })
    else (false, { st with s := sk.2, pos := st.length })

/-- The operations record of a `SubSeekableAudioStream`, for composing it under
another wrapper (as `makeLoopingAudioStream` at `audiostream.cpp:169` does).

Modelled from the spec: `endOfData`/`endOfStream` and `rewind` of this class
are defined in the header `audio/audiostream.h`, which is not under `src/`.
Per spec 4.2 the wrapper exposes only frames in `[start, end)` — it is
exhausted once `_pos` reaches `_length` or the parent has nothing more — and
a `SeekableAudioStream`'s rewind is a seek to time zero. -/
def subSource {σ : Type} (ops : SeekableSource σ) : SeekableSource (SubSeekableState σ) :=
  { read := SubSeekable.readBuffer ops
    endOfData := fun st => decide (tsLe st.length st.pos) || ops.endOfData st.s
    endOfStream := fun st => decide (tsLe st.length st.pos) || ops.endOfStream st.s
    rate := ops.rate
    stereo := ops.stereo
    rewind := fun st => SubSeekable.seek ops st ⟨0, ops.rate⟩
    seek := SubSeekable.seek ops
    getLength := fun st => st.length }

/-- Result of the range factory
`makeLoopingAudioStream(SeekableAudioStream *, Timestamp, Timestamp, uint)`:
a null stream on configuration error, the (possibly wrapped) input when the
range covers the whole stream, or a looped `SubSeekableAudioStream` slice. -/
inductive RangeLoopResult (σ : Type) where
  | nullStream
  | plain (s : σ)
  | looped (st : LoopingState σ)
  | subPlain (st : SubSeekableState σ)
  | subLooped (st : LoopingState (SubSeekableState σ))
deriving DecidableEq, Repr

/-- Embed a whole-stream factory result into a range-factory result. -/
def RangeLoopResult.liftPlain {σ : Type} : LoopingStreamResult σ → RangeLoopResult σ
  | .plain s => .plain s
  | .looped st => .looped st

/-- Embed a sub-range factory result into a range-factory result. -/
def RangeLoopResult.liftSub {σ : Type} :
    LoopingStreamResult (SubSeekableState σ) → RangeLoopResult σ
  | .plain st => .subPlain st
  | .looped st => .subLooped st

/-- `makeLoopingAudioStream(stream, start, end, loops)` (`audiostream.cpp:156`):
if `start` is zero and `end` is zero or the stream's whole length, loop the
stream directly; otherwise substitute the stream length for a zero `end`,
fail (destroying the input, reported by a warning) when `start >= end`, and
otherwise loop a `SubSeekableAudioStream` over `[start, end)`. -/
def makeLoopingAudioStreamRange {σ : Type} (ops : SeekableSource σ) (s : σ)
    (startT endT : Timestamp) (loops : Nat) : RangeLoopResult σ :=
  if startT.totalNumberOfFrames = 0 ∧
      (endT.totalNumberOfFrames = 0 ∨ tsEq endT (ops.getLength s)) then
    RangeLoopResult.liftPlain (makeLoopingAudioStream ops.toRewindableSource s loops)
  else
    let endT2 := if endT.totalNumberOfFrames = 0 then ops.getLength s else endT
    if tsLe endT2 startT then .nullStream
    else
      RangeLoopResult.liftSub
        (makeLoopingAudioStream (subSource ops).toRewindableSource
          (SubSeekable.construct ops s startT endT2) loops)

/-! ## SubLoopingAudioStream (`audio/audiostream.cpp:177`) -/

/-- State of a `SubLoopingAudioStream`: parent state, `_loops`,
`_completeIterations`, `_pos`, `_loopStart`, `_loopEnd`. -/
structure SubLoopingState (σ : Type) where
  s : σ
  loops : Nat
  completeIterations : Nat
  pos : Timestamp
  loopStart : Timestamp
  loopEnd : Timestamp
deriving DecidableEq, Repr

/-- The `SubLoopingAudioStream` constructor (`audiostream.cpp:177`): convert
both loop bounds to stream positions, start `_pos` at zero, rewind the parent;
a failed rewind collapses `_loops = _completeIterations = 1`. (The C++
asserts `loopStart < loopEnd`.) -/
def SubLooping.construct {σ : Type} (ops : SeekableSource σ) (s₀ : σ)
    (loops : Nat) (loopStartT loopEndT : Timestamp) : SubLoopingState σ :=
  let ls := convertTimeToStreamPos loopStartT ops.rate ops.stereo
  let le := convertTimeToStreamPos loopEndT ops.rate ops.stereo
  let rw := ops.rewind s₀
  if rw.1 = false then
    ⟨rw.2, 1, 1, ⟨0, ops.rate * (if ops.stereo then 2 else 1)⟩, ls, le⟩
  else
    ⟨rw.2, loops, 0, ⟨0, ops.rate * (if ops.stereo then 2 else 1)⟩, ls, le⟩

/-- Body of `SubLoopingAudioStream::readBuffer` (`audiostream.cpp:193`), fuel-
indexed like `LoopingAudioStream.readBufferAux`. Reads at most
`min(_loopEnd.frameDiff(_pos), numSamples)`; a parent that under-delivers while
at end-of-stream collapses the loop budget (premature end); hitting `_loopEnd`
exactly bumps `_completeIterations` and, with budget remaining, seeks back to
`_loopStart` (a failed seek collapses the budget) and recurses on the
remainder `numSamples - framesLeft`.

Modelled from the spec: the two `error(...)` calls are non-fatal diagnostics
(spec section 7) and execution continues. -/
def SubLooping.readBufferAux {σ : Type} (ops : SeekableSource σ) :
    Nat → SubLoopingState σ → Nat → List Int × SubLoopingState σ
  | 0, st, _ => ([], st)
  | fuel + 1, st, n =>
    if (st.loops ≠ 0 ∧ st.completeIterations = st.loops) ∨ n = 0 then ([], st)
    else
      let framesLeft : ℤ := min (st.loopEnd.frameDiff st.pos) (n : ℤ)
      let r := ops.read st.s framesLeft.toNat
      let pos' := st.pos.addFrames r.1.length
      if (r.1.length : ℤ) < framesLeft ∧ ops.endOfStream r.2 then
        let iters' := if st.completeIterations = 0 then 1 else st.completeIterations
        (r.1, ⟨r.2, iters', iters', pos', st.loopStart, st.loopEnd⟩)
      else if tsEq pos' st.loopEnd then
        let iters' := (st.completeIterations + 1) % U32
        if iters' = st.loops then
          (r.1, ⟨r.2, st.loops, iters', pos', st.loopStart, st.loopEnd⟩)
        else
          let sk := ops.seek r.2 st.loopStart
          if sk.1 = false then
            (r.1, ⟨sk.2, iters', iters', pos', st.loopStart, st.loopEnd⟩)
          else
            let st' : SubLoopingState σ :=
              ⟨sk.2, st.loops, iters', st.loopStart, st.loopStart, st.loopEnd⟩
            let rest := SubLooping.readBufferAux ops fuel st' (n - framesLeft.toNat)
            (r.1 ++ rest.1, rest.2)
      else (r.1, ⟨r.2, st.loops, st.completeIterations, pos', st.loopStart, st.loopEnd⟩)

/-- `SubLoopingAudioStream::readBuffer`: one call, requesting `n` samples. -/
def SubLooping.readBuffer {σ : Type} (ops : SeekableSource σ)
    (st : SubLoopingState σ) (n : Nat) : List Int × SubLoopingState σ :=
  SubLooping.readBufferAux ops (n + 2) st n

/-- `SubLoopingAudioStream::endOfStream` (`audiostream.cpp:232`). -/
def SubLooping.endOfStream {σ : Type} (st : SubLoopingState σ) : Bool :=
  decide (st.loops ≠ 0 ∧ st.completeIterations = st.loops)

/-- A sequence of `SubLoopingAudioStream::readBuffer` calls. -/
def SubLooping.run {σ : Type} (ops : SeekableSource σ) :
    SubLoopingState σ → List Nat → List Int × SubLoopingState σ
  | st, [] => ([], st)
  | st, n :: rest =>
    let r := SubLooping.readBuffer ops st n
    let r2 := SubLooping.run ops r.2 rest
    (r.1 ++ r2.1, r2.2)

/-! ## LimitingAudioStream (`audio/audiostream.cpp:435`) -/

/-- State of a `LimitingAudioStream`: parent state plus the `uint32` fields
`_totalSamples` and `_samplesRead`. -/
structure LimitingState (σ : Type) where
  s : σ
  totalSamples : Nat
  samplesRead : Nat
deriving DecidableEq, Repr

/-- The `LimitingAudioStream` constructor (`audiostream.cpp:437`):
`_totalSamples = length.convertToFramerate(getRate()).totalNumberOfFrames() *
getChannels()`, stored in a `uint32`; `_samplesRead = 0`. -/
def makeLimitingAudioStream {σ : Type} (ops : AudioSource σ) (s₀ : σ)
    (lengthT : Timestamp) : LimitingState σ :=
  ⟨s₀,
    (((lengthT.convertToFramerate ops.rate).totalNumberOfFrames *
        (if ops.stereo then 2 else 1)).toNat) % U32,
    0⟩

/-- `LimitingAudioStream::readBuffer` (`audiostream.cpp:446`): cap the request
at `_totalSamples - _samplesRead`. The subtraction is C++ `uint32` arithmetic
(wrapping), and `MIN<int>` reads that difference as a signed 32-bit value; a
negative capped request reaches the parent as zero. -/
def LimitingAudioStream.readBuffer {σ : Type} (ops : AudioSource σ)
    (st : LimitingState σ) (n : Nat) : List Int × LimitingState σ :=
  let diff : Nat := (st.totalSamples + U32 - st.samplesRead) % U32
  let capped : ℤ := min (n : ℤ) (if diff < I31 then (diff : ℤ) else (diff : ℤ) - U32)
  let r := ops.read st.s capped.toNat
  (r.1, ⟨r.2, st.totalSamples, (st.samplesRead + r.1.length) % U32⟩)

/-- `LimitingAudioStream::reachedLimit` (`audiostream.cpp:460`). -/
def LimitingAudioStream.reachedLimit {σ : Type} (st : LimitingState σ) : Bool :=
  decide (st.totalSamples ≤ st.samplesRead)

/-- `LimitingAudioStream::endOfData` (`audiostream.cpp:453`). -/
def LimitingAudioStream.endOfData {σ : Type} (ops : AudioSource σ)
    (st : LimitingState σ) : Bool :=
  ops.endOfData st.s || LimitingAudioStream.reachedLimit st

/-- `LimitingAudioStream::endOfStream` (`audiostream.cpp:454`). -/
def LimitingAudioStream.endOfStream {σ : Type} (ops : AudioSource σ)
    (st : LimitingState σ) : Bool :=
  ops.endOfStream st.s || LimitingAudioStream.reachedLimit st

/-- A sequence of `LimitingAudioStream::readBuffer` calls. -/
def LimitingAudioStream.run {σ : Type} (ops : AudioSource σ) :
    LimitingState σ → List Nat → List Int × LimitingState σ
  | st, [] => ([], st)
  | st, n :: rest =>
    let r := LimitingAudioStream.readBuffer ops st n
    let r2 := LimitingAudioStream.run ops r.2 rest
    (r.1 ++ r2.1, r2.2)

/-! ## QueuingAudioStreamImpl (`audio/audiostream.cpp:285`) -/

/-- `QueuingAudioStreamImpl::StreamHolder` (`audiostream.cpp:294`): a queued
sub-stream together with its dispose-after-use flag (the flag only governs
memory reclamation, which has no observable effect in this model). -/
structure StreamHolder (σ : Type) where
  stream : σ
  disposeAfterUse : Bool
deriving DecidableEq, Repr

/-- State of a `QueuingAudioStreamImpl`: the FIFO queue of stream holders and
the `_finished` flag. -/
structure QueuingState (σ : Type) where
  queue : List (StreamHolder σ)
  finished : Bool
deriving DecidableEq, Repr

/-- Body of `QueuingAudioStreamImpl::readBuffer` (`audiostream.cpp:379`), the
`while` loop made structural on a fuel bound: while fewer than `n` samples
are decoded and the queue is non-empty, read from the front stream; if it then
reports end-of-stream, pop it (disposal has no model effect) and continue;
if it reports end-of-data (but not end-of-stream), stop with the partial
count. -/
def QueuingImpl.readBufferAux {σ : Type} (ops : AudioSource σ) :
    Nat → QueuingState σ → Nat → List Int × QueuingState σ
  | 0, st, _ => ([], st)
  | fuel + 1, st, n =>
    match st.queue with
    | [] => ([], st)
    | h :: rest =>
      if n = 0 then ([], st)
      else
        let r := ops.read h.stream n
        if ops.endOfStream r.2 then
          let next := QueuingImpl.readBufferAux ops fuel ⟨rest, st.finished⟩ (n - r.1.length)
          (r.1 ++ next.1, next.2)
        else if ops.endOfData r.2 then
          (r.1, ⟨⟨r.2, h.disposeAfterUse⟩ :: rest, st.finished⟩)
        else
          let next := QueuingImpl.readBufferAux ops fuel
            ⟨⟨r.2, h.disposeAfterUse⟩ :: rest, st.finished⟩ (n - r.1.length)
          (r.1 ++ next.1, next.2)

/-- `QueuingAudioStreamImpl::readBuffer`: one call, requesting `n` samples. -/
def QueuingImpl.readBuffer {σ : Type} (ops : AudioSource σ)
    (st : QueuingState σ) (n : Nat) : List Int × QueuingState σ :=
  QueuingImpl.readBufferAux ops (st.queue.length + n + 1) st n

/-- `QueuingAudioStreamImpl::endOfData` (`audiostream.cpp:338`). -/
def QueuingImpl.endOfData {σ : Type} (ops : AudioSource σ) (st : QueuingState σ) : Bool :=
  match st.queue with
  | [] => true
  | h :: _ => ops.endOfData h.stream

/-- `QueuingAudioStreamImpl::endOfStream` (`audiostream.cpp:343`). -/
def QueuingImpl.endOfStream {σ : Type} (st : QueuingState σ) : Bool :=
  st.finished && st.queue.isEmpty

/-- `QueuingAudioStreamImpl::queueAudioStream` (`audiostream.cpp:370`): append
at the tail. (The C++ rejects rate/channel mismatches and enqueue-after-finish
fatally; a single shared `ops` fixes the rate here.) -/
def QueuingImpl.queueAudioStream {σ : Type} (st : QueuingState σ) (s : σ)
    (disposeAfterUse : Bool) : QueuingState σ :=
  ⟨st.queue ++ [⟨s, disposeAfterUse⟩], st.finished⟩

/-! ## A chunked producer stream

A concrete instance of the `AudioSource` interface for driving the queuing
stream: a producer that currently holds a list of non-empty sample chunks and
serves at most one chunk per `readBuffer` call (so a single queue-loop
iteration can genuinely under-deliver), reports end-of-data when its chunks
are exhausted, and end-of-stream only when additionally `closed`. -/
structure ChunkStream where
  chunks : List (List Int)
  closed : Bool
deriving DecidableEq, Repr

/-- One read from a chunked producer: serve up to `n` samples from the first
chunk only. -/
def chunkRead (s : ChunkStream) (n : Nat) : List Int × ChunkStream :=
  match s.chunks with
  | [] => ([], s)
  | c :: cs =>
    let out := c.take n
    if n < c.length then (out, ⟨c.drop n :: cs, s.closed⟩)
    else (out, ⟨cs, s.closed⟩)

/-- The operations record of a chunked producer stream. -/
def chunkSource (rate : ℕ) (stereo : Bool) : AudioSource ChunkStream :=
  { read := chunkRead
    endOfData := fun s => decide (s.chunks = [])
    endOfStream := fun s => decide (s.chunks = []) && s.closed
    rate := rate
    stereo := stereo }

/-- All the samples a chunked producer currently has to offer. -/
def ChunkStream.content (s : ChunkStream) : List Int :=
  s.chunks.flatten

/-- Consistency of a `SubLoopingAudioStream` state over a mono list-backed
parent: the loop bounds are the frame-precise timestamps `ls`/`le` at the
stream framerate, `_pos` mirrors the parent cursor, the parent holds at least
`le` samples and seeks/rewinds successfully, the cursor never passes
`_loopEnd`, and from the second iteration on it never precedes `_loopStart`. -/
def SubLoopingConsistent (rate ls le : ℕ) (st : SubLoopingState ListStream) : Prop :=
  st.loopStart = ⟨(ls : ℚ), rate⟩ ∧ st.loopEnd = ⟨(le : ℚ), rate⟩ ∧
  st.pos = ⟨(st.s.pos : ℚ), rate⟩ ∧
  le ≤ st.s.data.length ∧ ls < le ∧
  st.s.rewindOk = true ∧ st.s.seekOk = true ∧
  st.s.pos ≤ le ∧ (1 ≤ st.completeIterations → ls ≤ st.s.pos)

/-- What one `QueuingAudioStreamImpl::readBuffer` call delivers, as observed
against the queue it started from: some prefix of `k` queued streams is
consumed whole, in FIFO order, and popped — each of them only after reaching
end-of-stream (fully drained and `closed`) — then `m` samples are taken from
the stream that becomes the new front (which keeps its holder's dispose flag
and its `closed` status); at most `n` samples are produced in total, and the
call stops short of `n` only when the queue has run out or the new front
reports end-of-data without end-of-stream (drained but not `closed`). -/
def QueueReadSpec (q : List (StreamHolder ChunkStream)) (fin : Bool) (n : Nat)
    (out : List Int) (st' : QueuingState ChunkStream) : Prop :=
  st'.finished = fin ∧ out.length ≤ n ∧
  ∃ k m, k ≤ q.length ∧
    (∀ h ∈ q.take k, h.stream.closed = true) ∧
    ((q.drop k = [] ∧ m = 0 ∧
        out = ((q.take k).map (fun h => h.stream.content)).flatten ∧
        st'.queue = []) ∨
      (∃ hq rq s2, q.drop k = hq :: rq ∧
        out = ((q.take k).map (fun h => h.stream.content)).flatten
          ++ (hq.stream.content).take m ∧
        st'.queue = ⟨s2, hq.disposeAfterUse⟩ :: rq ∧
        s2.content = (hq.stream.content).drop m ∧
        s2.closed = hq.stream.closed ∧ m ≤ (hq.stream.content).length)) ∧
    (out.length < n → st'.queue = [] ∨
      ∃ s2 b rq, st'.queue = ⟨s2, b⟩ :: rq ∧ s2.chunks = [] ∧ s2.closed = false)

/-! ## Theorems -/

/-- `frameDiff` of two whole-frame timestamps at a common framerate. -/
lemma frameDiff_cast (a b rate : ℕ) :
    Timestamp.frameDiff ⟨(a : ℚ), rate⟩ ⟨(b : ℚ), rate⟩ = (a : ℤ) - b := by
  simp only [Timestamp.frameDiff]
  rw [show ((a : ℚ) - (b : ℚ)) = (((a : ℤ) - (b : ℤ) : ℤ) : ℚ) by push_cast; ring]
  exact Int.floor_intCast _

/-- `tsEq` of two whole-frame timestamps at a common positive framerate is
frame-count equality. -/
lemma tsEq_cast (a b rate : ℕ) (h : 0 < rate) :
    tsEq ⟨(a : ℚ), rate⟩ ⟨(b : ℚ), rate⟩ ↔ a = b := by
  unfold tsEq
  simp only
  constructor
  · intro hx
    have := mul_right_cancel₀ (b := ((rate : ℕ) : ℚ))
      (by exact_mod_cast h.ne' : ((rate : ℕ) : ℚ) ≠ 0) hx
    exact_mod_cast this
  · intro hx
    rw [hx]

/-- `addFrames` of a whole-frame timestamp by a natural frame count. -/
lemma addFrames_cast (a rate : ℕ) (d : ℕ) :
    (⟨(a : ℚ), rate⟩ : Timestamp).addFrames (d : ℕ) = ⟨((a + d : ℕ) : ℚ), rate⟩ := by
  simp only [Timestamp.addFrames]
  congr 1
  push_cast
  ring

/-- Euclidean division/remainder recompose: `(m / r) * r + m % r = m`. -/
lemma int_ediv_mul_add_emod (m : ℤ) (r : ℕ) : (m / (r : ℤ)) * r + m % r = m := by
  rw [mul_comm]
  exact Int.ediv_add_emod m r

/-- Rebuilding a timestamp from its integer seconds and frame remainder keeps
exactly its integer frame count (dropping any sub-frame fraction). -/
lemma ofSecsFrames_eq (u : Timestamp) :
    Timestamp.ofSecsFrames u.secs u.numberOfFrames u.framerate
      = ⟨((u.totalNumberOfFrames : ℤ) : ℚ), u.framerate⟩ := by
  simp only [Timestamp.ofSecsFrames, Timestamp.secs, Timestamp.numberOfFrames]
  congr 1
  exact_mod_cast congrArg (fun z : ℤ => (z : ℚ))
    (int_ediv_mul_add_emod u.totalNumberOfFrames u.framerate)

/-- Converting a mono timestamp already expressed at the target rate just
floors its frame count. -/
lemma convert_mono_self (q : ℚ) (rate : ℕ) (h : 0 < rate) :
    convertTimeToStreamPos ⟨q, rate⟩ rate false = ⟨((⌊q⌋ : ℤ) : ℚ), rate⟩ := by
  have hr : ((rate : ℚ)) ≠ 0 := Nat.cast_ne_zero.mpr h.ne'
  have h1 : (⟨q, rate⟩ : Timestamp).convertToFramerate
      (rate * (if (false : Bool) = true then 2 else 1)) = ⟨q, rate⟩ := by
    simp only [Timestamp.convertToFramerate, if_neg (by simp : ¬(false : Bool) = true),
      mul_one]
    exact congrArg (fun x => Timestamp.mk x rate) (mul_div_cancel_right₀ q hr)
  simp only [convertTimeToStreamPos, h1]
  rw [if_neg (by simp : ¬((false : Bool) = true ∧
    (⟨q, rate⟩ : Timestamp).totalNumberOfFrames % 2 = 1))]
  exact ofSecsFrames_eq ⟨q, rate⟩

/-- Claim C3: for every input timestamp and every rate,
`convertTimeToStreamPos(time, rate, stereo = true)` converts the time to frame
rate `rate * 2`; the returned total sample count is the floor of the exact
converted sample count, decremented by exactly one when that floor is odd
(truncation, not rounding to nearest), and is therefore always even. -/
theorem spec_C3 (t : Timestamp) (rate : ℕ) :
    (convertTimeToStreamPos t rate true).framerate = rate * 2 ∧
    (convertTimeToStreamPos t rate true).numFrames =
      (((if (t.convertToFramerate (rate * 2)).totalNumberOfFrames % 2 = 1 then
          (t.convertToFramerate (rate * 2)).totalNumberOfFrames - 1
        else (t.convertToFramerate (rate * 2)).totalNumberOfFrames) : ℤ) : ℚ) ∧
    (2 : ℤ) ∣ ⌊(convertTimeToStreamPos t rate true).numFrames⌋ := by
  have hdiv : ∀ (m : ℤ) (r : ℕ), (m / (r : ℤ)) * r + m % r = m := by
    intro m r
    rw [mul_comm]
    exact Int.ediv_add_emod m r
  have hof : ∀ u : Timestamp, Timestamp.ofSecsFrames u.secs u.numberOfFrames u.framerate
      = ⟨((u.totalNumberOfFrames : ℤ) : ℚ), u.framerate⟩ := by
    intro u
    simp only [Timestamp.ofSecsFrames, Timestamp.secs, Timestamp.numberOfFrames]
    congr 1
    exact_mod_cast congrArg (fun z : ℤ => (z : ℚ)) (hdiv u.totalNumberOfFrames u.framerate)
  by_cases hodd : (t.convertToFramerate (rate * 2)).totalNumberOfFrames % 2 = 1
  · have haf : ((t.convertToFramerate (rate * 2)).addFrames (-1)).totalNumberOfFrames
        = (t.convertToFramerate (rate * 2)).totalNumberOfFrames - 1 := by
      simp only [Timestamp.addFrames, Timestamp.totalNumberOfFrames, Int.cast_neg, Int.cast_one]
      rw [show (-1 : ℚ) = ((-1 : ℤ) : ℚ) by norm_num, Int.floor_add_int]
      omega
    have e1 : convertTimeToStreamPos t rate true
        = Timestamp.ofSecsFrames ((t.convertToFramerate (rate * 2)).addFrames (-1)).secs
            ((t.convertToFramerate (rate * 2)).addFrames (-1)).numberOfFrames
            ((t.convertToFramerate (rate * 2)).addFrames (-1)).framerate := by
      unfold convertTimeToStreamPos
      norm_num [hodd]
    rw [e1, hof, if_pos hodd]
    refine ⟨?_, ?_, ?_⟩
    · simp [Timestamp.addFrames, Timestamp.convertToFramerate]
    · rw [haf]
    · rw [haf, Int.floor_intCast]
      omega
  · have e1 : convertTimeToStreamPos t rate true
        = Timestamp.ofSecsFrames (t.convertToFramerate (rate * 2)).secs
            (t.convertToFramerate (rate * 2)).numberOfFrames
            (t.convertToFramerate (rate * 2)).framerate := by
      unfold convertTimeToStreamPos
      norm_num [hodd]
    rw [e1, hof, if_neg hodd]
    refine ⟨?_, rfl, ?_⟩
    · simp [Timestamp.convertToFramerate]
    · rw [Int.floor_intCast]
      omega

/-- Claim C9: at `LoopingAudioStream` construction, if a requested initial
rewind fails, or the parent is already at end-of-stream afterwards (in
particular for an empty stream), then `_loops` and `_completeIterations`
collapse to `1`: the stream is immediately at end-of-stream and every
subsequent read returns zero samples instead of looping forever. -/
theorem spec_C9 (rate : ℕ) (stereo : Bool) (data : List Int) (pos₀ : Nat)
    (rwOk sOK : Bool) (loops : Nat) (rewind : Bool)
    (h : (rewind = true ∧ rwOk = false) ∨ data = [] ∨
      (rewind = false ∧ data.length ≤ pos₀)) :
    (LoopingAudioStream.construct (listSource rate stereo).toRewindableSource
        ⟨data, pos₀, rwOk, sOK⟩ loops rewind).loops = 1 ∧
    (LoopingAudioStream.construct (listSource rate stereo).toRewindableSource
        ⟨data, pos₀, rwOk, sOK⟩ loops rewind).completeIterations = 1 ∧
    LoopingAudioStream.endOfStream
      (LoopingAudioStream.construct (listSource rate stereo).toRewindableSource
        ⟨data, pos₀, rwOk, sOK⟩ loops rewind) = true ∧
    ∀ n, LoopingAudioStream.readBuffer (listSource rate stereo).toRewindableSource
      (LoopingAudioStream.construct (listSource rate stereo).toRewindableSource
        ⟨data, pos₀, rwOk, sOK⟩ loops rewind) n
      = ([], LoopingAudioStream.construct (listSource rate stereo).toRewindableSource
          ⟨data, pos₀, rwOk, sOK⟩ loops rewind) := by
  have hcoll : (LoopingAudioStream.construct (listSource rate stereo).toRewindableSource
      ⟨data, pos₀, rwOk, sOK⟩ loops rewind).loops = 1 ∧
      (LoopingAudioStream.construct (listSource rate stereo).toRewindableSource
        ⟨data, pos₀, rwOk, sOK⟩ loops rewind).completeIterations = 1 := by
    rcases h with ⟨hr, hf⟩ | hd | ⟨hr, hp⟩
    · subst hr
      subst hf
      simp only [LoopingAudioStream.construct, listSource]
      by_cases he : data.length ≤ pos₀ <;> simp [he]
    · subst hd
      simp only [LoopingAudioStream.construct, listSource]
      rcases rewind with _ | _ <;> rcases rwOk with _ | _ <;> simp
    · subst hr
      simp only [LoopingAudioStream.construct, listSource]
      simp [hp]
  refine ⟨hcoll.1, hcoll.2, ?_, ?_⟩
  · simp [LoopingAudioStream.endOfStream, hcoll.1, hcoll.2]
  · intro n
    show LoopingAudioStream.readBufferAux _ (n + 2) _ n = _
    rw [show n + 2 = (n + 1) + 1 from rfl]
    simp [LoopingAudioStream.readBufferAux, hcoll.1, hcoll.2]

/-- Witness for C9: constructing over an empty parent stream with `loops = 5`
collapses the loop budget to one. -/
theorem spec_C9_witness :
    ((true = true ∧ true = false) ∨ ([] : List Int) = [] ∨
      (true = false ∧ List.length ([] : List Int) ≤ 0)) ∧
    (LoopingAudioStream.construct (listSource 1 false).toRewindableSource
        ⟨[], 0, true, true⟩ 5 true).loops = 1 ∧
    (LoopingAudioStream.construct (listSource 1 false).toRewindableSource
        ⟨[], 0, true, true⟩ 5 true).completeIterations = 1 ∧
    LoopingAudioStream.endOfStream
      (LoopingAudioStream.construct (listSource 1 false).toRewindableSource
        ⟨[], 0, true, true⟩ 5 true) = true ∧
    LoopingAudioStream.readBuffer (listSource 1 false).toRewindableSource
      (LoopingAudioStream.construct (listSource 1 false).toRewindableSource
        ⟨[], 0, true, true⟩ 5 true) 3
      = ([], LoopingAudioStream.construct (listSource 1 false).toRewindableSource
          ⟨[], 0, true, true⟩ 5 true) :=
  ⟨Or.inr (Or.inl rfl),
    (spec_C9 1 false [] 0 true true 5 true (Or.inr (Or.inl rfl))).1,
    (spec_C9 1 false [] 0 true true 5 true (Or.inr (Or.inl rfl))).2.1,
    (spec_C9 1 false [] 0 true true 5 true (Or.inr (Or.inl rfl))).2.2.1,
    (spec_C9 1 false [] 0 true true 5 true (Or.inr (Or.inl rfl))).2.2.2 3⟩

/-- Claim C10: the factory `makeLoopingAudioStream(stream, loops)` with
`loops == 1` returns the input stream itself, unwrapped, so its
`endOfData`/`endOfStream` behaviour is exactly the parent's own; only for
`loops != 1` is a `LoopingAudioStream` wrapper constructed. -/
theorem spec_C10 {σ : Type} (ops : RewindableSource σ) (s : σ) :
    makeLoopingAudioStream ops s 1 = .plain s ∧
    LoopingStreamResult.eosR ops (makeLoopingAudioStream ops s 1) = ops.endOfStream s ∧
    LoopingStreamResult.eodR ops (makeLoopingAudioStream ops s 1) = ops.endOfData s ∧
    ∀ loops, loops ≠ 1 → makeLoopingAudioStream ops s loops
      = .looped (LoopingAudioStream.construct ops s loops true) := by
  refine ⟨by simp [makeLoopingAudioStream], ?_, ?_, ?_⟩
  · simp [makeLoopingAudioStream, LoopingStreamResult.eosR]
  · simp [makeLoopingAudioStream, LoopingStreamResult.eodR]
  · intro loops hl
    simp [makeLoopingAudioStream, hl]

/-- Witness for C10 at a concrete list-backed stream and `loops = 2`. -/
theorem spec_C10_witness :
    makeLoopingAudioStream (listSource 1 false).toRewindableSource
      ⟨[1], 0, true, true⟩ 1 = .plain ⟨[1], 0, true, true⟩ ∧
    (2 : Nat) ≠ 1 ∧
    makeLoopingAudioStream (listSource 1 false).toRewindableSource
        ⟨[1], 0, true, true⟩ 2
      = .looped (LoopingAudioStream.construct (listSource 1 false).toRewindableSource
          ⟨[1], 0, true, true⟩ 2 true) :=
  ⟨(spec_C10 (listSource 1 false).toRewindableSource ⟨[1], 0, true, true⟩).1,
    by decide,
    (spec_C10 (listSource 1 false).toRewindableSource ⟨[1], 0, true, true⟩).2.2.2 2
      (by decide)⟩

/-- Claim C6: `SubSeekableAudioStream::seek(t)` fails in exactly two cases, in
both pinning the position at the sub-range length so a subsequent `readBuffer`
delivers zero samples: (1) the converted position exceeds `_length` — clamp,
fail, parent untouched; (2) the parent seek to `start + t` fails — position
set to `_length`, fail. Otherwise the parent is sought to `start + t` and the
call succeeds. -/
theorem spec_C6 (rate : ℕ) (stereo : Bool) (st : SubSeekableState ListStream)
    (t : Timestamp) :
    (tsLt st.length (convertTimeToStreamPos t rate stereo) →
      (SubSeekable.seek (listSource rate stereo) st t).1 = false ∧
      (SubSeekable.seek (listSource rate stereo) st t).2.pos = st.length ∧
      (SubSeekable.seek (listSource rate stereo) st t).2.s = st.s ∧
      ∀ n, (SubSeekable.readBuffer (listSource rate stereo)
        (SubSeekable.seek (listSource rate stereo) st t).2 n).1 = []) ∧
    (¬ tsLt st.length (convertTimeToStreamPos t rate stereo) → st.s.seekOk = false →
      (SubSeekable.seek (listSource rate stereo) st t).1 = false ∧
      (SubSeekable.seek (listSource rate stereo) st t).2.pos = st.length ∧
      ∀ n, (SubSeekable.readBuffer (listSource rate stereo)
        (SubSeekable.seek (listSource rate stereo) st t).2 n).1 = []) ∧
    (¬ tsLt st.length (convertTimeToStreamPos t rate stereo) → st.s.seekOk = true →
      (SubSeekable.seek (listSource rate stereo) st t).1 = true ∧
      (SubSeekable.seek (listSource rate stereo) st t).2.pos
        = convertTimeToStreamPos t rate stereo ∧
      (SubSeekable.seek (listSource rate stereo) st t).2.s.pos
        = (tsAdd (convertTimeToStreamPos t rate stereo) st.start).totalNumberOfFrames.toNat) := by
  have hread : ∀ (u : SubSeekableState ListStream), u.pos = u.length →
      ∀ n, (SubSeekable.readBuffer (listSource rate stereo) u n).1 = [] := by
    intro u hu n
    simp only [SubSeekable.readBuffer, Timestamp.frameDiff, hu, sub_self, Int.floor_zero,
      listSource, listRead]
    have : min (0 : ℤ) (n : ℤ) = 0 := min_eq_left (Int.ofNat_nonneg n)
    rw [this]
    simp
  refine ⟨?_, ?_, ?_⟩
  · intro hlt
    have he : SubSeekable.seek (listSource rate stereo) st t
        = (false, { st with pos := st.length }) := by
      simp only [SubSeekable.seek, listSource]
      rw [if_pos hlt]
    rw [he]
    exact ⟨rfl, rfl, rfl, hread _ rfl⟩
  · intro hlt hok
    have he : SubSeekable.seek (listSource rate stereo) st t
        = (false, { st with pos := st.length }) := by
      simp only [SubSeekable.seek, listSource]
      rw [if_neg hlt]
      simp [hok]
    rw [he]
    exact ⟨rfl, rfl, hread _ rfl⟩
  · intro hlt hok
    have he : SubSeekable.seek (listSource rate stereo) st t
        = (true, { st with
            s := { st.s with
              pos := (tsAdd (convertTimeToStreamPos t rate stereo)
                st.start).totalNumberOfFrames.toNat },
            pos := convertTimeToStreamPos t rate stereo }) := by
      simp only [SubSeekable.seek, listSource]
      rw [if_neg hlt]
      simp [hok]
    rw [he]
    exact ⟨rfl, rfl, rfl⟩

/-- Witness for C6: seeking a 4-frame sub-range to 9 frames (beyond its
length) fails, pins the position at the end, leaves the parent cursor
untouched, and a following read delivers nothing. -/
theorem spec_C6_witness :
    tsLt (⟨4, 2⟩ : Timestamp) (convertTimeToStreamPos ⟨9, 2⟩ 2 false) ∧
    ((SubSeekable.seek (listSource 2 false)
        ⟨⟨[1, 2, 3, 4, 5, 6], 1, true, true⟩, ⟨1, 2⟩, ⟨0, 2⟩, ⟨4, 2⟩⟩ ⟨9, 2⟩).1 = false ∧
      (SubSeekable.seek (listSource 2 false)
        ⟨⟨[1, 2, 3, 4, 5, 6], 1, true, true⟩, ⟨1, 2⟩, ⟨0, 2⟩, ⟨4, 2⟩⟩ ⟨9, 2⟩).2.pos = ⟨4, 2⟩ ∧
      (SubSeekable.seek (listSource 2 false)
        ⟨⟨[1, 2, 3, 4, 5, 6], 1, true, true⟩, ⟨1, 2⟩, ⟨0, 2⟩, ⟨4, 2⟩⟩ ⟨9, 2⟩).2.s
        = ⟨[1, 2, 3, 4, 5, 6], 1, true, true⟩ ∧
      ∀ n, (SubSeekable.readBuffer (listSource 2 false)
        (SubSeekable.seek (listSource 2 false)
          ⟨⟨[1, 2, 3, 4, 5, 6], 1, true, true⟩, ⟨1, 2⟩, ⟨0, 2⟩, ⟨4, 2⟩⟩ ⟨9, 2⟩).2 n).1 = []) :=
  have hlt : tsLt (⟨4, 2⟩ : Timestamp) (convertTimeToStreamPos ⟨9, 2⟩ 2 false) := by
    rw [convert_mono_self 9 2 (by norm_num)]
    norm_num [tsLt]
  ⟨hlt,
    (spec_C6 2 false ⟨⟨[1, 2, 3, 4, 5, 6], 1, true, true⟩, ⟨1, 2⟩, ⟨0, 2⟩, ⟨4, 2⟩⟩ ⟨9, 2⟩).1
      hlt⟩

/-- Counterexample to C7 as stated: with `start = end = ` the zero timestamp
(so `start >= end`), the factory does not fail with a null result — the
whole-stream branch takes precedence and the stream is looped directly. -/
theorem spec_C7_counterexample :
    tsLe (⟨0, 2⟩ : Timestamp) ⟨0, 2⟩ ∧
    makeLoopingAudioStreamRange (listSource 2 false) ⟨[1, 2], 0, true, true⟩
        ⟨0, 2⟩ ⟨0, 2⟩ 2
      = .looped ⟨⟨[1, 2], 0, true, true⟩, 2, 0⟩ ∧
    makeLoopingAudioStreamRange (listSource 2 false) ⟨[1, 2], 0, true, true⟩
        ⟨0, 2⟩ ⟨0, 2⟩ 2
      ≠ .nullStream := by
  have hc : (⟨0, 2⟩ : Timestamp).totalNumberOfFrames = 0 := by
    simp [Timestamp.totalNumberOfFrames]
  have he : makeLoopingAudioStreamRange (listSource 2 false) ⟨[1, 2], 0, true, true⟩
      ⟨0, 2⟩ ⟨0, 2⟩ 2 = .looped ⟨⟨[1, 2], 0, true, true⟩, 2, 0⟩ := by
    simp only [makeLoopingAudioStreamRange]
    rw [if_pos ⟨hc, Or.inl hc⟩]
    simp [makeLoopingAudioStream, LoopingAudioStream.construct, listSource,
      RangeLoopResult.liftPlain]
  refine ⟨by norm_num [tsLe], he, ?_⟩
  rw [he]
  simp

/-- Claim C7 (amended): the factory loops the stream directly when the
requested range covers the whole stream (`start` has zero frames and `end`
has zero frames or equals the stream length) — this branch takes precedence;
otherwise, after substituting the stream length for a zero `end`, if
`start >= end` the factory fails with a null result (the input is destroyed
and a configuration warning reported); otherwise it wraps the stream in a
`SubSeekableAudioStream` over `[start, end)` and loops that. -/
theorem spec_C7_amended {σ : Type} (ops : SeekableSource σ) (s : σ)
    (startT endT : Timestamp) (loops : Nat) :
    (startT.totalNumberOfFrames = 0 ∧
        (endT.totalNumberOfFrames = 0 ∨ tsEq endT (ops.getLength s)) →
      makeLoopingAudioStreamRange ops s startT endT loops
        = RangeLoopResult.liftPlain (makeLoopingAudioStream ops.toRewindableSource s loops)) ∧
    (¬ (startT.totalNumberOfFrames = 0 ∧
        (endT.totalNumberOfFrames = 0 ∨ tsEq endT (ops.getLength s))) →
      tsLe (if endT.totalNumberOfFrames = 0 then ops.getLength s else endT) startT →
      makeLoopingAudioStreamRange ops s startT endT loops = .nullStream) ∧
    (¬ (startT.totalNumberOfFrames = 0 ∧
        (endT.totalNumberOfFrames = 0 ∨ tsEq endT (ops.getLength s))) →
      ¬ tsLe (if endT.totalNumberOfFrames = 0 then ops.getLength s else endT) startT →
      makeLoopingAudioStreamRange ops s startT endT loops
        = RangeLoopResult.liftSub (makeLoopingAudioStream (subSource ops).toRewindableSource
            (SubSeekable.construct ops s startT
              (if endT.totalNumberOfFrames = 0 then ops.getLength s else endT)) loops)) := by
  refine ⟨?_, ?_, ?_⟩
  · intro hw
    simp only [makeLoopingAudioStreamRange]
    rw [if_pos hw]
  · intro hw hle
    simp only [makeLoopingAudioStreamRange]
    rw [if_neg hw, if_pos hle]
  · intro hw hle
    simp only [makeLoopingAudioStreamRange]
    rw [if_neg hw, if_neg hle]

/-- Witness for C7 (amended), exercising the failure branch: a degenerate
range `[1 frame, 1 frame)` that does not cover the whole 4-sample stream
yields the null result. -/
theorem spec_C7_witness :
    ¬ ((⟨1, 2⟩ : Timestamp).totalNumberOfFrames = 0 ∧
      ((⟨1, 2⟩ : Timestamp).totalNumberOfFrames = 0 ∨
        tsEq ⟨1, 2⟩ ((listSource 2 false).getLength ⟨[1, 2, 3, 4], 0, true, true⟩))) ∧
    tsLe (if (⟨1, 2⟩ : Timestamp).totalNumberOfFrames = 0 then
        (listSource 2 false).getLength ⟨[1, 2, 3, 4], 0, true, true⟩
      else ⟨1, 2⟩) ⟨1, 2⟩ ∧
    makeLoopingAudioStreamRange (listSource 2 false) ⟨[1, 2, 3, 4], 0, true, true⟩
      ⟨1, 2⟩ ⟨1, 2⟩ 3 = .nullStream :=
  have h1 : ¬ ((⟨1, 2⟩ : Timestamp).totalNumberOfFrames = 0 ∧
      ((⟨1, 2⟩ : Timestamp).totalNumberOfFrames = 0 ∨
        tsEq ⟨1, 2⟩ ((listSource 2 false).getLength ⟨[1, 2, 3, 4], 0, true, true⟩))) := by
    norm_num [Timestamp.totalNumberOfFrames]
  have h2 : tsLe (if (⟨1, 2⟩ : Timestamp).totalNumberOfFrames = 0 then
      (listSource 2 false).getLength ⟨[1, 2, 3, 4], 0, true, true⟩
    else ⟨1, 2⟩) ⟨1, 2⟩ := by
    norm_num [Timestamp.totalNumberOfFrames, tsLe]
  ⟨h1, h2,
    (spec_C7_amended (listSource 2 false) ⟨[1, 2, 3, 4], 0, true, true⟩
      ⟨1, 2⟩ ⟨1, 2⟩ 3).2.1 h1 h2⟩

/-- A list-backed stream never delivers more samples than requested. -/
lemma listRead_length_le (s : ListStream) (n : Nat) : ((listRead s n).1).length ≤ n := by
  simp only [listRead, List.length_take]
  omega

/-- One `LimitingAudioStream::readBuffer` call from an in-range state: no more
than `n` samples are delivered, `_samplesRead` advances by exactly the
delivered count and stays within `_totalSamples`. -/
lemma limiting_step {σ : Type} (ops : AudioSource σ)
    (hle : ∀ s n, ((ops.read s n).1).length ≤ n)
    (st : LimitingState σ) (n : Nat)
    (hinv : st.samplesRead ≤ st.totalSamples) (htot : st.totalSamples < I31) :
    ((LimitingAudioStream.readBuffer ops st n).1).length ≤ n ∧
    (LimitingAudioStream.readBuffer ops st n).2.samplesRead
      = st.samplesRead + ((LimitingAudioStream.readBuffer ops st n).1).length ∧
    (LimitingAudioStream.readBuffer ops st n).2.samplesRead ≤ st.totalSamples ∧
    (LimitingAudioStream.readBuffer ops st n).2.totalSamples = st.totalSamples := by
  have hU32 : U32 = 4294967296 := by norm_num [U32]
  have hI31 : I31 = 2147483648 := by norm_num [I31]
  rw [hI31] at htot
  simp only [LimitingAudioStream.readBuffer, hU32, hI31]
  have hd : (st.totalSamples + 4294967296 - st.samplesRead) % 4294967296
      = st.totalSamples - st.samplesRead := by omega
  rw [hd, if_pos (by omega : st.totalSamples - st.samplesRead < 2147483648),
    ← Nat.cast_min, Int.toNat_natCast]
  have hr := hle st.s (min n (st.totalSamples - st.samplesRead))
  have hr1 : ((ops.read st.s (min n (st.totalSamples - st.samplesRead))).1).length ≤ n :=
    le_trans hr (min_le_left ..)
  have hr2 : ((ops.read st.s (min n (st.totalSamples - st.samplesRead))).1).length
      ≤ st.totalSamples - st.samplesRead :=
    le_trans hr (min_le_right ..)
  exact ⟨hr1, by omega, by omega, trivial⟩

/-- A sequence of `LimitingAudioStream::readBuffer` calls from an in-range
state: the total delivered equals the advance of `_samplesRead`, which never
exceeds `_totalSamples`. -/
lemma limiting_run {σ : Type} (ops : AudioSource σ)
    (hle : ∀ s n, ((ops.read s n).1).length ≤ n) :
    ∀ (ns : List Nat) (st : LimitingState σ),
      st.samplesRead ≤ st.totalSamples → st.totalSamples < I31 →
      (LimitingAudioStream.run ops st ns).2.samplesRead
          = st.samplesRead + ((LimitingAudioStream.run ops st ns).1).length ∧
      (LimitingAudioStream.run ops st ns).2.samplesRead ≤ st.totalSamples ∧
      (LimitingAudioStream.run ops st ns).2.totalSamples = st.totalSamples := by
  intro ns
  induction ns with
  | nil => intro st h1 h2; exact ⟨by simp [LimitingAudioStream.run], h1, rfl⟩
  | cons n rest ih =>
    intro st h1 h2
    have hs := limiting_step ops hle st n h1 h2
    have ihr := ih (LimitingAudioStream.readBuffer ops st n).2
      (by omega) (by omega)
    simp only [LimitingAudioStream.run, List.length_append]
    refine ⟨?_, ?_, ?_⟩ <;> omega

/-- Claim C5: for `LimitingAudioStream`, if the parent never returns more
samples than requested, the cumulative samples delivered across all
`readBuffer` calls never exceed the configured limit converted to the
stream's own rate and channel count, and `endOfStream()` is true exactly when
the parent reports end-of-stream or the sample cap is reached, whichever
happens first. (The cap must fit a C++ `int`.) -/
theorem spec_C5 {σ : Type} (ops : AudioSource σ) (s₀ : σ) (lengthT : Timestamp)
    (ns : List Nat)
    (hle : ∀ s n, ((ops.read s n).1).length ≤ n)
    (htot : (makeLimitingAudioStream ops s₀ lengthT).totalSamples < I31) :
    ((LimitingAudioStream.run ops (makeLimitingAudioStream ops s₀ lengthT) ns).1).length
      ≤ (makeLimitingAudioStream ops s₀ lengthT).totalSamples ∧
    (LimitingAudioStream.run ops (makeLimitingAudioStream ops s₀ lengthT) ns).2.samplesRead
      = ((LimitingAudioStream.run ops (makeLimitingAudioStream ops s₀ lengthT) ns).1).length ∧
    LimitingAudioStream.endOfStream ops
        (LimitingAudioStream.run ops (makeLimitingAudioStream ops s₀ lengthT) ns).2
      = (ops.endOfStream
          (LimitingAudioStream.run ops (makeLimitingAudioStream ops s₀ lengthT) ns).2.s
        || decide
          ((LimitingAudioStream.run ops (makeLimitingAudioStream ops s₀ lengthT) ns).2.totalSamples
            ≤ (LimitingAudioStream.run ops (makeLimitingAudioStream ops s₀ lengthT) ns).2.samplesRead)) ∧
    (((LimitingAudioStream.run ops (makeLimitingAudioStream ops s₀ lengthT) ns).1).length
        = (makeLimitingAudioStream ops s₀ lengthT).totalSamples →
      LimitingAudioStream.endOfStream ops
        (LimitingAudioStream.run ops (makeLimitingAudioStream ops s₀ lengthT) ns).2 = true) := by
  have h0 : (makeLimitingAudioStream ops s₀ lengthT).samplesRead = 0 := rfl
  have hr := limiting_run ops hle ns (makeLimitingAudioStream ops s₀ lengthT)
    (by omega) htot
  refine ⟨by omega, by omega, rfl, ?_⟩
  intro hcap
  simp only [LimitingAudioStream.endOfStream, LimitingAudioStream.reachedLimit]
  have : (LimitingAudioStream.run ops (makeLimitingAudioStream ops s₀ lengthT) ns).2.totalSamples
      ≤ (LimitingAudioStream.run ops (makeLimitingAudioStream ops s₀ lengthT) ns).2.samplesRead := by
    omega
  simp [this]

/-- Witness for C5: a 3-frame cap at 1 Hz mono over a 5-sample parent, read
in chunks of 2. -/
theorem spec_C5_witness :
    (∀ (s : ListStream) (n : Nat), (((listSource 1 false).read s n).1).length ≤ n) ∧
    (makeLimitingAudioStream (listSource 1 false).toAudioSource
      ⟨[1, 2, 3, 4, 5], 0, true, true⟩ ⟨3, 1⟩).totalSamples < I31 ∧
    ((LimitingAudioStream.run (listSource 1 false).toAudioSource
      (makeLimitingAudioStream (listSource 1 false).toAudioSource
        ⟨[1, 2, 3, 4, 5], 0, true, true⟩ ⟨3, 1⟩) [2, 2, 2]).1).length
      ≤ (makeLimitingAudioStream (listSource 1 false).toAudioSource
          ⟨[1, 2, 3, 4, 5], 0, true, true⟩ ⟨3, 1⟩).totalSamples :=
  have hle : ∀ (s : ListStream) (n : Nat), (((listSource 1 false).read s n).1).length ≤ n :=
    fun s n => listRead_length_le s n
  have htot : (makeLimitingAudioStream (listSource 1 false).toAudioSource
      ⟨[1, 2, 3, 4, 5], 0, true, true⟩ ⟨3, 1⟩).totalSamples < I31 := by
    simp only [makeLimitingAudioStream, listSource, Timestamp.convertToFramerate,
      Timestamp.totalNumberOfFrames, U32, I31]
    norm_num
    omega
  ⟨hle, htot,
    (spec_C5 (listSource 1 false).toAudioSource ⟨[1, 2, 3, 4, 5], 0, true, true⟩
      ⟨3, 1⟩ [2, 2, 2] hle htot).1⟩

/-- One (fuel-indexed) `LoopingAudioStream::readBuffer` call over an infinite
loop budget (`_loops = 0`) and a non-empty, successfully rewinding parent
leaves the budget infinite and the parent non-empty and rewindable. -/
lemma loop_aux_zero (rate : ℕ) (stereo : Bool) :
    ∀ (fuel : Nat) (st : LoopingState ListStream) (n : Nat),
      st.loops = 0 → st.s.rewindOk = true → st.s.data ≠ [] →
      (LoopingAudioStream.readBufferAux (listSource rate stereo).toRewindableSource
          fuel st n).2.loops = 0 ∧
      (LoopingAudioStream.readBufferAux (listSource rate stereo).toRewindableSource
          fuel st n).2.s.rewindOk = true ∧
      (LoopingAudioStream.readBufferAux (listSource rate stereo).toRewindableSource
          fuel st n).2.s.data ≠ [] := by
  intro fuel
  induction fuel with
  | zero => intro st n h1 h2 h3; exact ⟨h1, h2, h3⟩
  | succ fuel ih =>
    intro st n h1 h2 h3
    have hpos : 0 < st.s.data.length := List.length_pos.mpr h3
    have hne : ¬ st.s.data.length ≤ 0 := by omega
    simp only [LoopingAudioStream.readBufferAux, listSource, listRead, h2, hne, if_true,
      if_false, decide_eq_true_eq, decide_False, List.length_take, List.length_drop]
    split
    · exact ⟨h1, h2, h3⟩
    · split
      · split
        · exact ⟨h1, rfl, h3⟩
        · have := ih ⟨⟨st.s.data, 0, st.s.rewindOk, st.s.seekOk⟩, st.loops,
            (st.completeIterations + 1) % U32⟩
            (n - min n (st.s.data.length - st.s.pos)) h1 h2 h3
          simpa [listSource, listRead, h2] using this
      · exact ⟨h1, rfl, h3⟩

/-- Any sequence of reads over an infinite loop budget and a non-empty,
successfully rewinding parent keeps the budget infinite. -/
lemma loop_run_zero (rate : ℕ) (stereo : Bool) :
    ∀ (ns : List Nat) (st : LoopingState ListStream),
      st.loops = 0 → st.s.rewindOk = true → st.s.data ≠ [] →
      (LoopingAudioStream.run (listSource rate stereo).toRewindableSource st ns).2.loops = 0 ∧
      (LoopingAudioStream.run (listSource rate stereo).toRewindableSource st ns).2.s.rewindOk
        = true ∧
      (LoopingAudioStream.run (listSource rate stereo).toRewindableSource st ns).2.s.data
        ≠ [] := by
  intro ns
  induction ns with
  | nil => intro st h1 h2 h3; exact ⟨h1, h2, h3⟩
  | cons n rest ih =>
    intro st h1 h2 h3
    have hs := loop_aux_zero rate stereo (n + 2) st n h1 h2 h3
    exact ih (LoopingAudioStream.readBuffer (listSource rate stereo).toRewindableSource st n).2
      hs.1 hs.2.1 hs.2.2

/-- Claim C8: a `LoopingAudioStream` constructed with `loops = 0` over a
non-empty parent that always rewinds successfully never reports
`endOfStream() == true`, over any sequence of `readBuffer` calls. -/
theorem spec_C8 (rate : ℕ) (stereo : Bool) (data : List Int) (pos₀ : Nat) (sOK : Bool)
    (ns : List Nat) (h : data ≠ []) :
    LoopingAudioStream.endOfStream
      (LoopingAudioStream.run (listSource rate stereo).toRewindableSource
        (LoopingAudioStream.construct (listSource rate stereo).toRewindableSource
          ⟨data, pos₀, true, sOK⟩ 0 true) ns).2 = false := by
  have hne : ¬ data.length ≤ 0 := by
    have := List.length_pos.mpr h
    omega
  have hc : LoopingAudioStream.construct (listSource rate stereo).toRewindableSource
      ⟨data, pos₀, true, sOK⟩ 0 true = ⟨⟨data, 0, true, sOK⟩, 0, 0⟩ := by
    simp [LoopingAudioStream.construct, listSource, hne]
  rw [hc]
  have hr := loop_run_zero rate stereo ns ⟨⟨data, 0, true, sOK⟩, 0, 0⟩ rfl rfl h
  simp [LoopingAudioStream.endOfStream, hr.1]

/-- Witness for C8: a two-sample infinite loop read twice. -/
theorem spec_C8_witness :
    ([1, 2] : List Int) ≠ [] ∧
    LoopingAudioStream.endOfStream
      (LoopingAudioStream.run (listSource 1 false).toRewindableSource
        (LoopingAudioStream.construct (listSource 1 false).toRewindableSource
          ⟨[1, 2], 0, true, true⟩ 0 true) [3, 3]).2 = false :=
  ⟨by decide, spec_C8 1 false [1, 2] 0 true [3, 3] (by decide)⟩

/-- One (fuel-indexed) `LoopingAudioStream::readBuffer` call over a finite
loop budget `N ≥ 1` and an `L`-sample parent that rewinds successfully, from a
consistent state: exactly `min n remaining` samples are delivered, where
`remaining = N*L - (completeIterations*L + pos)`, and the state stays
consistent with `remaining` decreasing by the delivered count. -/
lemma loop_aux_count (rate : ℕ) (stereo : Bool) (N L : ℕ)
    (hN : 1 ≤ N) (hNU : N < U32) (hL : 1 ≤ L) :
    ∀ (fuel n : Nat) (st : LoopingState ListStream),
      n + 2 ≤ fuel →
      st.loops = N → st.s.rewindOk = true → st.s.data.length = L →
      ((st.completeIterations = N ∧ st.s.pos = L) ∨
        (st.completeIterations < N ∧ st.s.pos < L)) →
      ((LoopingAudioStream.readBufferAux (listSource rate stereo).toRewindableSource
          fuel st n).1.length
        = min n (N * L - (st.completeIterations * L + st.s.pos)) ∧
      (LoopingAudioStream.readBufferAux (listSource rate stereo).toRewindableSource
          fuel st n).2.loops = N ∧
      (LoopingAudioStream.readBufferAux (listSource rate stereo).toRewindableSource
          fuel st n).2.s.rewindOk = true ∧
      (LoopingAudioStream.readBufferAux (listSource rate stereo).toRewindableSource
          fuel st n).2.s.data = st.s.data ∧
      (((LoopingAudioStream.readBufferAux (listSource rate stereo).toRewindableSource
            fuel st n).2.completeIterations = N ∧
          (LoopingAudioStream.readBufferAux (listSource rate stereo).toRewindableSource
            fuel st n).2.s.pos = L) ∨
        ((LoopingAudioStream.readBufferAux (listSource rate stereo).toRewindableSource
            fuel st n).2.completeIterations < N ∧
          (LoopingAudioStream.readBufferAux (listSource rate stereo).toRewindableSource
            fuel st n).2.s.pos < L)) ∧
      N * L - ((LoopingAudioStream.readBufferAux (listSource rate stereo).toRewindableSource
            fuel st n).2.completeIterations * L
          + (LoopingAudioStream.readBufferAux (listSource rate stereo).toRewindableSource
            fuel st n).2.s.pos)
        = (N * L - (st.completeIterations * L + st.s.pos))
          - (LoopingAudioStream.readBufferAux (listSource rate stereo).toRewindableSource
              fuel st n).1.length) := by
  intro fuel
  induction fuel with
  | zero => intro n st hf; omega
  | succ fuel ih =>
    intro n st hf h1 h2 h3 hgood
    have hne : ¬ L ≤ 0 := by omega
    simp only [LoopingAudioStream.readBufferAux, listSource, listRead, h2, h3, hne, if_true,
      if_false, decide_eq_true_eq, Bool.true_eq_false, List.length_take, List.length_drop,
      List.length_append]
    split
    · rename_i hgu
      rcases hgu with ⟨_, hit⟩ | hn0
      · rcases hgood with ⟨hiN, hpL⟩ | ⟨hiN, _⟩
        · refine ⟨?_, h1, h2, rfl, Or.inl ⟨hiN, hpL⟩, ?_⟩ <;>
            · simp only [List.length_nil, hiN, hpL]
              omega
        · rw [h1] at hit
          omega
      · subst hn0
        exact ⟨by simp only [List.length_nil]; omega, h1, h2, rfl, hgood,
          by simp only [List.length_nil]; omega⟩
    · rename_i hgu
      push_neg at hgu
      have hiN : st.completeIterations ≠ N := by
        intro hc
        exact absurd (h1 ▸ hc) (fun hx => (hgu.1 (by omega) hx).elim)
      have hi : st.completeIterations < N := by
        rcases hgood with ⟨hx, _⟩ | ⟨hx, _⟩ <;> omega
      have hp : st.s.pos < L := by
        rcases hgood with ⟨hx, _⟩ | ⟨_, hx⟩ <;> [exact absurd hx hiN; exact hx]
      have hn1 : 1 ≤ n := by
        rcases Nat.eq_zero_or_pos n with h0 | h0
        · exact absurd h0 hgu.2
        · exact h0
      have hmod : (st.completeIterations + 1) % U32 = st.completeIterations + 1 :=
        Nat.mod_eq_of_lt (by omega)
      have hmul : st.completeIterations * L + L ≤ N * L := by
        have := mul_le_mul_right' (show st.completeIterations + 1 ≤ N by omega) L
        rw [add_one_mul] at this
        exact this
      simp only [hmod, h1]
      split
      · rename_i heos
        have hlen : (List.take n (List.drop st.s.pos st.s.data)).length
            = n ⊓ (L - st.s.pos) := by
          simp [List.length_take, List.length_drop, h3]
        split
        · rename_i hz
          have hmulz : st.completeIterations * L + L = N * L := by
            rw [← hz, add_one_mul]
          refine ⟨?_, rfl, rfl, rfl, Or.inl ⟨hz, ?_⟩, ?_⟩
          · simp only [hlen]
            omega
          · simp only [hlen]
            omega
          · simp only [hlen, add_one_mul]
            omega
        · rename_i hz
          have hi2 : st.completeIterations + 1 < N := by omega
          have ihr := ih (n - n ⊓ (L - st.s.pos))
            ⟨⟨st.s.data, 0, true, st.s.seekOk⟩, N, st.completeIterations + 1⟩
            (by omega) rfl rfl h3 (Or.inr ⟨hi2, by show (0 : ℕ) < L; omega⟩)
          simp only [listSource, listRead] at ihr
          obtain ⟨e1, e2, e3, e4, e5, e6⟩ := ihr
          rw [add_one_mul] at e1 e6
          refine ⟨?_, e2, e3, e4, e5, ?_⟩
          · simp only [List.length_append, hlen]
            omega
          · simp only [List.length_append, hlen]
            omega
      · rename_i heos
        have hlen : (List.take n (List.drop st.s.pos st.s.data)).length
            = n ⊓ (L - st.s.pos) := by
          simp [List.length_take, List.length_drop, h3]
        refine ⟨?_, rfl, rfl, rfl, Or.inr ⟨hi, ?_⟩, ?_⟩
        · simp only [hlen]
          omega
        · simp only [hlen]
          omega
        · simp only [hlen]
          omega

/-- A sequence of `LoopingAudioStream::readBuffer` calls over a finite loop
budget delivers exactly `min (sum of requests) remaining` samples, keeping the
state consistent. -/
lemma loop_run_count (rate : ℕ) (stereo : Bool) (N L : ℕ)
    (hN : 1 ≤ N) (hNU : N < U32) (hL : 1 ≤ L) :
    ∀ (ns : List Nat) (st : LoopingState ListStream),
      st.loops = N → st.s.rewindOk = true → st.s.data.length = L →
      ((st.completeIterations = N ∧ st.s.pos = L) ∨
        (st.completeIterations < N ∧ st.s.pos < L)) →
      ((LoopingAudioStream.run (listSource rate stereo).toRewindableSource st ns).1.length
        = min ns.sum (N * L - (st.completeIterations * L + st.s.pos)) ∧
      (LoopingAudioStream.run (listSource rate stereo).toRewindableSource st ns).2.loops = N ∧
      (((LoopingAudioStream.run (listSource rate stereo).toRewindableSource st ns).2.completeIterations = N ∧
          (LoopingAudioStream.run (listSource rate stereo).toRewindableSource st ns).2.s.pos = L) ∨
        ((LoopingAudioStream.run (listSource rate stereo).toRewindableSource st ns).2.completeIterations < N ∧
          (LoopingAudioStream.run (listSource rate stereo).toRewindableSource st ns).2.s.pos < L)) ∧
      N * L - ((LoopingAudioStream.run (listSource rate stereo).toRewindableSource st ns).2.completeIterations * L
          + (LoopingAudioStream.run (listSource rate stereo).toRewindableSource st ns).2.s.pos)
        = (N * L - (st.completeIterations * L + st.s.pos))
          - (LoopingAudioStream.run (listSource rate stereo).toRewindableSource st ns).1.length) := by
  intro ns
  induction ns with
  | nil =>
    intro st h1 h2 h3 hgood
    exact ⟨by simp [LoopingAudioStream.run], h1, hgood, by simp [LoopingAudioStream.run]⟩
  | cons n rest ih =>
    intro st h1 h2 h3 hgood
    have hstep := loop_aux_count rate stereo N L hN hNU hL (n + 2) n st (le_refl _)
      h1 h2 h3 hgood
    obtain ⟨s1, s2, s3, s4, s5, s6⟩ := hstep
    rw [show LoopingAudioStream.readBufferAux (listSource rate stereo).toRewindableSource
      (n + 2) st n = LoopingAudioStream.readBuffer (listSource rate stereo).toRewindableSource
      st n from rfl] at s1 s2 s3 s4 s5 s6
    have h3' : (LoopingAudioStream.readBuffer (listSource rate stereo).toRewindableSource
        st n).2.s.data.length = L := by
      rw [s4]
      exact h3
    have ihr := ih (LoopingAudioStream.readBuffer (listSource rate stereo).toRewindableSource
      st n).2 s2 s3 h3' s5
    obtain ⟨e1, e2, e3, e4⟩ := ihr
    simp only [LoopingAudioStream.run, List.length_append, List.sum_cons]
    exact ⟨by omega, e2, e3, by omega⟩

/-- Claim C1: a `LoopingAudioStream` with `loops = N ≥ 1` over a non-empty,
successfully rewinding finite parent of `L` samples per pass delivers, over
any sequence of `readBuffer` calls requesting `ns` samples in total, exactly
`min (sum ns) (N*L)` samples — so the lifetime total is exactly `N*L` — and
`endOfStream()` is true exactly once all `N*L` samples (the `N`th pass) have
been delivered, and not before. -/
theorem spec_C1 (rate : ℕ) (stereo : Bool) (data : List Int) (pos₀ : Nat) (sOK : Bool)
    (N : Nat) (ns : List Nat) (hd : data ≠ []) (hN : 1 ≤ N) (hNU : N < U32) :
    ((LoopingAudioStream.run (listSource rate stereo).toRewindableSource
        (LoopingAudioStream.construct (listSource rate stereo).toRewindableSource
          ⟨data, pos₀, true, sOK⟩ N true) ns).1.length
      = min ns.sum (N * data.length)) ∧
    (LoopingAudioStream.endOfStream
        (LoopingAudioStream.run (listSource rate stereo).toRewindableSource
          (LoopingAudioStream.construct (listSource rate stereo).toRewindableSource
            ⟨data, pos₀, true, sOK⟩ N true) ns).2 = true ↔
      (LoopingAudioStream.run (listSource rate stereo).toRewindableSource
        (LoopingAudioStream.construct (listSource rate stereo).toRewindableSource
          ⟨data, pos₀, true, sOK⟩ N true) ns).1.length = N * data.length) := by
  have hL : 1 ≤ data.length := by
    have := List.length_pos.mpr hd
    omega
  have hne : ¬ data.length ≤ 0 := by omega
  have hc : LoopingAudioStream.construct (listSource rate stereo).toRewindableSource
      ⟨data, pos₀, true, sOK⟩ N true = ⟨⟨data, 0, true, sOK⟩, N, 0⟩ := by
    simp [LoopingAudioStream.construct, listSource, hne]
  rw [hc]
  have hr := loop_run_count rate stereo N data.length hN hNU hL ns
    ⟨⟨data, 0, true, sOK⟩, N, 0⟩ rfl rfl rfl
    (Or.inr ⟨show (0 : ℕ) < N by omega, show (0 : ℕ) < data.length by omega⟩)
  obtain ⟨e1, e2, e3, e4⟩ := hr
  simp only [Nat.zero_mul, Nat.zero_add, Nat.add_zero, Nat.sub_zero] at e1 e4
  refine ⟨e1, ?_⟩
  · simp only [LoopingAudioStream.endOfStream, e2, decide_eq_true_eq]
    constructor
    · rintro ⟨-, hit⟩
      rcases e3 with ⟨hiN, hpL⟩ | ⟨hiN, hpL⟩
      · rw [hiN, hpL] at e4
        omega
      · omega
    · intro hlen
      refine ⟨by omega, ?_⟩
      rcases e3 with ⟨hiN, hpL⟩ | ⟨hiN, hpL⟩
      · exact hiN
      · exfalso
        have hmul : (LoopingAudioStream.run (listSource rate stereo).toRewindableSource
            ⟨⟨data, 0, true, sOK⟩, N, 0⟩ ns).2.completeIterations * data.length + data.length
            ≤ N * data.length := by
          have := mul_le_mul_right'
            (show (LoopingAudioStream.run (listSource rate stereo).toRewindableSource
              ⟨⟨data, 0, true, sOK⟩, N, 0⟩ ns).2.completeIterations + 1 ≤ N by omega) data.length
          rw [add_one_mul] at this
          exact this
        omega

/-- Witness for C1: a four-sample parent with `loops = 3`, read as 10 then 2
samples (total request 12 = `3 * 4`), delivers all 12 samples with
`endOfStream` then true. -/
theorem spec_C1_witness :
    ([1, 2, 3, 4] : List Int) ≠ [] ∧ 1 ≤ 3 ∧ 3 < U32 ∧
    (((LoopingAudioStream.run (listSource 1 false).toRewindableSource
        (LoopingAudioStream.construct (listSource 1 false).toRewindableSource
          ⟨[1, 2, 3, 4], 0, true, true⟩ 3 true) [10, 2]).1.length
      = min ([10, 2] : List Nat).sum (3 * ([1, 2, 3, 4] : List Int).length)) ∧
    (LoopingAudioStream.endOfStream
        (LoopingAudioStream.run (listSource 1 false).toRewindableSource
          (LoopingAudioStream.construct (listSource 1 false).toRewindableSource
            ⟨[1, 2, 3, 4], 0, true, true⟩ 3 true) [10, 2]).2 = true ↔
      (LoopingAudioStream.run (listSource 1 false).toRewindableSource
        (LoopingAudioStream.construct (listSource 1 false).toRewindableSource
          ⟨[1, 2, 3, 4], 0, true, true⟩ 3 true) [10, 2]).1.length
        = 3 * ([1, 2, 3, 4] : List Int).length)) :=
  ⟨by decide, by decide, by norm_num [U32],
    spec_C1 1 false [1, 2, 3, 4] 0 true 3 [10, 2] (by decide) (by decide)
      (by norm_num [U32])⟩

/-- A `SubLoopingAudioStream` read of zero samples returns nothing and leaves
the state unchanged, at any fuel. -/
lemma subLooping_aux_zero {σ : Type} (ops : SeekableSource σ) :
    ∀ (fuel : Nat) (st : SubLoopingState σ),
      SubLooping.readBufferAux ops fuel st 0 = ([], st) := by
  intro fuel st
  cases fuel with
  | zero => rfl
  | succ fuel => simp [SubLooping.readBufferAux]

/-- One (fuel-indexed) `SubLoopingAudioStream::readBuffer` call preserves
consistency: the cursor never passes `_loopEnd`, and once an iteration has
completed it never precedes `_loopStart` again. -/
lemma subLooping_aux_inv (rate ls le : ℕ) (hrate : 0 < rate) :
    ∀ (fuel n : Nat) (st : SubLoopingState ListStream),
      SubLoopingConsistent rate ls le st →
      SubLoopingConsistent rate ls le
        ((SubLooping.readBufferAux (listSource rate false) fuel st n).2) := by
  intro fuel
  induction fuel with
  | zero => intro n st hInv; exact hInv
  | succ fuel ih =>
    intro n st hInv
    obtain ⟨c1, c2, c3, c4, c5, c6, c7, c8, c9⟩ := hInv
    by_cases hg : (st.loops ≠ 0 ∧ st.completeIterations = st.loops) ∨ n = 0
    · simp only [SubLooping.readBufferAux]
      rw [if_pos hg]
      exact ⟨c1, c2, c3, c4, c5, c6, c7, c8, c9⟩
    · have htn : (min ((le : ℤ) - (st.s.pos : ℤ)) (n : ℤ)).toNat
          = min (le - st.s.pos) n := by omega
      have hlen : (List.take (min (le - st.s.pos) n) (List.drop st.s.pos st.s.data)).length
          = min (le - st.s.pos) n := by
        simp only [List.length_take, List.length_drop]
        omega
      have hsl : (⟨(ls : ℚ), rate⟩ : Timestamp).totalNumberOfFrames.toNat = ls := by
        simp [Timestamp.totalNumberOfFrames, Int.floor_natCast]
      have hnpre : ¬ (((min (le - st.s.pos) n : ℕ) : ℤ) < min ((le : ℤ) - (st.s.pos : ℤ)) (n : ℤ)
          ∧ st.s.data.length ≤ st.s.pos + min (le - st.s.pos) n) := by
        rintro ⟨hx, -⟩
        omega
      by_cases hb : st.s.pos + min (le - st.s.pos) n = le
      · by_cases hz : (st.completeIterations + 1) % U32 = st.loops
        · have hres : SubLooping.readBufferAux (listSource rate false) (fuel + 1) st n
              = ((st.s.data.drop st.s.pos).take (min (le - st.s.pos) n),
                ⟨⟨st.s.data, st.s.pos + min (le - st.s.pos) n, st.s.rewindOk, st.s.seekOk⟩,
                  st.loops, (st.completeIterations + 1) % U32,
                  ⟨((st.s.pos + min (le - st.s.pos) n : ℕ) : ℚ), rate⟩,
                  ⟨(ls : ℚ), rate⟩, ⟨(le : ℚ), rate⟩⟩) := by
            simp only [SubLooping.readBufferAux]
            rw [if_neg hg]
            simp only [listSource, listRead, c1, c2, c3, frameDiff_cast, htn, hlen,
              addFrames_cast, decide_eq_true_eq]
            rw [if_neg hnpre, if_pos ((tsEq_cast _ _ _ hrate).mpr hb), if_pos hz]
          rw [hres]
          refine ⟨rfl, rfl, rfl, c4, c5, c6, c7, ?_, ?_⟩
          · show st.s.pos + min (le - st.s.pos) n ≤ le
            omega
          · intro hx
            show ls ≤ st.s.pos + min (le - st.s.pos) n
            omega
        · have hres : SubLooping.readBufferAux (listSource rate false) (fuel + 1) st n
              = ((st.s.data.drop st.s.pos).take (min (le - st.s.pos) n)
                  ++ (SubLooping.readBufferAux (listSource rate false) fuel
                    ⟨⟨st.s.data, ls, st.s.rewindOk, st.s.seekOk⟩,
                      st.loops, (st.completeIterations + 1) % U32,
                      ⟨(ls : ℚ), rate⟩, ⟨(ls : ℚ), rate⟩, ⟨(le : ℚ), rate⟩⟩
                    (n - min (le - st.s.pos) n)).1,
                (SubLooping.readBufferAux (listSource rate false) fuel
                  ⟨⟨st.s.data, ls, st.s.rewindOk, st.s.seekOk⟩,
                    st.loops, (st.completeIterations + 1) % U32,
                    ⟨(ls : ℚ), rate⟩, ⟨(ls : ℚ), rate⟩, ⟨(le : ℚ), rate⟩⟩
                  (n - min (le - st.s.pos) n)).2) := by
            simp only [SubLooping.readBufferAux]
            rw [if_neg hg]
            simp only [listSource, listRead, c1, c2, c3, c7, frameDiff_cast, htn, hlen,
              addFrames_cast, decide_eq_true_eq, hsl, if_true, if_false, Bool.true_eq_false]
            rw [if_neg hnpre, if_pos ((tsEq_cast _ _ _ hrate).mpr hb), if_neg hz]
          rw [hres]
          exact ih (n - min (le - st.s.pos) n)
            ⟨⟨st.s.data, ls, st.s.rewindOk, st.s.seekOk⟩,
              st.loops, (st.completeIterations + 1) % U32,
              ⟨(ls : ℚ), rate⟩, ⟨(ls : ℚ), rate⟩, ⟨(le : ℚ), rate⟩⟩
            ⟨rfl, rfl, rfl, c4, c5, c6, c7, by show ls ≤ le; omega, fun _ => le_refl ls⟩
      · have hres : SubLooping.readBufferAux (listSource rate false) (fuel + 1) st n
            = ((st.s.data.drop st.s.pos).take (min (le - st.s.pos) n),
              ⟨⟨st.s.data, st.s.pos + min (le - st.s.pos) n, st.s.rewindOk, st.s.seekOk⟩,
                st.loops, st.completeIterations,
                ⟨((st.s.pos + min (le - st.s.pos) n : ℕ) : ℚ), rate⟩,
                ⟨(ls : ℚ), rate⟩, ⟨(le : ℚ), rate⟩⟩) := by
          simp only [SubLooping.readBufferAux]
          rw [if_neg hg]
          simp only [listSource, listRead, c1, c2, c3, frameDiff_cast, htn, hlen,
            addFrames_cast, decide_eq_true_eq]
          rw [if_neg hnpre, if_neg (fun hx => hb ((tsEq_cast _ _ _ hrate).mp hx))]
        rw [hres]
        refine ⟨rfl, rfl, rfl, c4, c5, c6, c7, ?_, ?_⟩
        · show st.s.pos + min (le - st.s.pos) n ≤ le
          omega
        · intro hx
          have := c9 hx
          show ls ≤ st.s.pos + min (le - st.s.pos) n
          omega

/-- Any sequence of `SubLoopingAudioStream::readBuffer` calls preserves
consistency. -/
lemma subLooping_run_inv (rate ls le : ℕ) (hrate : 0 < rate) :
    ∀ (ns : List Nat) (st : SubLoopingState ListStream),
      SubLoopingConsistent rate ls le st →
      SubLoopingConsistent rate ls le
        ((SubLooping.run (listSource rate false) st ns)).2 := by
  intro ns
  induction ns with
  | nil => intro st h; exact h
  | cons n rest ih =>
    intro st h
    exact ih _ (subLooping_aux_inv rate ls le hrate (n + 2) n st h)

/-- The freshly constructed `SubLoopingAudioStream` state is consistent. -/
lemma subLooping_construct_inv (rate ls le : ℕ) (hrate : 0 < rate)
    (data : List Int) (pos₀ : Nat) (loops : Nat)
    (hlt : ls < le) (hle : le ≤ data.length) :
    SubLoopingConsistent rate ls le
      (SubLooping.construct (listSource rate false) ⟨data, pos₀, true, true⟩ loops
        ⟨(ls : ℚ), rate⟩ ⟨(le : ℚ), rate⟩) := by
  have hconv1 : convertTimeToStreamPos ⟨(ls : ℚ), rate⟩ rate false = ⟨(ls : ℚ), rate⟩ := by
    rw [convert_mono_self _ _ hrate]
    norm_num
  have hconv2 : convertTimeToStreamPos ⟨(le : ℚ), rate⟩ rate false = ⟨(le : ℚ), rate⟩ := by
    rw [convert_mono_self _ _ hrate]
    norm_num
  simp only [SubLooping.construct, listSource, hconv1, hconv2, if_true, if_false,
    Bool.true_eq_false]
  refine ⟨rfl, rfl, ?_, hle, hlt, rfl, rfl, ?_, ?_⟩
  · show (⟨0, rate * (if false = true then 2 else 1)⟩ : Timestamp) = ⟨((0 : ℕ) : ℚ), rate⟩
    norm_num
  · show (0 : ℕ) ≤ le
    omega
  · intro hx
    exact absurd hx (by norm_num)

/-- The read that lands exactly on `_loopEnd`, with loop budget remaining,
delivers the frames up to `_loopEnd` and leaves both the wrapper position and
the parent cursor at `_loopStart`. -/
lemma subLooping_boundary_step (rate ls le : ℕ) (hrate : 0 < rate)
    (st : SubLoopingState ListStream) (k : ℕ)
    (hInv : SubLoopingConsistent rate ls le st)
    (hg1 : ¬ (st.loops ≠ 0 ∧ st.completeIterations = st.loops))
    (hb : st.s.pos + k = le) (hk : 1 ≤ k)
    (hz : (st.completeIterations + 1) % U32 ≠ st.loops) :
    SubLooping.readBuffer (listSource rate false) st k
      = ((st.s.data.drop st.s.pos).take k,
        ⟨⟨st.s.data, ls, st.s.rewindOk, st.s.seekOk⟩, st.loops,
          (st.completeIterations + 1) % U32,
          ⟨(ls : ℚ), rate⟩, ⟨(ls : ℚ), rate⟩, ⟨(le : ℚ), rate⟩⟩) := by
  obtain ⟨c1, c2, c3, c4, c5, c6, c7, c8, c9⟩ := hInv
  have hg : ¬ ((st.loops ≠ 0 ∧ st.completeIterations = st.loops) ∨ k = 0) := by
    rintro (hx | hx)
    · exact hg1 hx
    · omega
  have hmin : min (le - st.s.pos) k = k := by omega
  have htn : (min ((le : ℤ) - (st.s.pos : ℤ)) (k : ℤ)).toNat = k := by omega
  have hlen : (List.take k (List.drop st.s.pos st.s.data)).length = k := by
    simp only [List.length_take, List.length_drop]
    omega
  have hsl : (⟨(ls : ℚ), rate⟩ : Timestamp).totalNumberOfFrames.toNat = ls := by
    simp [Timestamp.totalNumberOfFrames, Int.floor_natCast]
  have hnpre : ¬ (((k : ℕ) : ℤ) < min ((le : ℤ) - (st.s.pos : ℤ)) (k : ℤ)
      ∧ st.s.data.length ≤ st.s.pos + k) := by
    rintro ⟨hx, -⟩
    omega
  show SubLooping.readBufferAux (listSource rate false) (k + 2) st k = _
  rw [show k + 2 = (k + 1) + 1 from rfl]
  simp only [SubLooping.readBufferAux]
  rw [if_neg hg]
  simp only [listSource, listRead, c1, c2, c3, c7, frameDiff_cast, htn, hlen,
    addFrames_cast, decide_eq_true_eq, hsl, if_true, if_false, Bool.true_eq_false]
  rw [if_neg hnpre, if_pos ((tsEq_cast _ _ _ hrate).mpr (by omega)), if_neg hz,
    if_pos (Or.inr (Nat.sub_self k))]
  simp

/-- Counterexample to C4 as stated: a `SubLoopingAudioStream` over
`[10,20,30,40]` with loop range `[2,4)` (frames) starts its first pass at
parent position `0`, strictly before `loopStart = 2`, and its first read
delivers the samples `10, 20` that precede the loop range — so the playback
position does not stay within `[loopStart, loopEnd)` for every read. -/
theorem spec_C4_counterexample :
    (SubLooping.construct (listSource 2 false) ⟨[10, 20, 30, 40], 0, true, true⟩ 2
        ⟨2, 2⟩ ⟨4, 2⟩).s.pos = 0 ∧
    tsLt (SubLooping.construct (listSource 2 false) ⟨[10, 20, 30, 40], 0, true, true⟩ 2
        ⟨2, 2⟩ ⟨4, 2⟩).pos
      (SubLooping.construct (listSource 2 false) ⟨[10, 20, 30, 40], 0, true, true⟩ 2
        ⟨2, 2⟩ ⟨4, 2⟩).loopStart ∧
    (SubLooping.readBuffer (listSource 2 false)
        (SubLooping.construct (listSource 2 false) ⟨[10, 20, 30, 40], 0, true, true⟩ 2
          ⟨2, 2⟩ ⟨4, 2⟩) 4).1 = [10, 20, 30, 40] := by
  have h1 : convertTimeToStreamPos ⟨2, 2⟩ 2 false = ⟨2, 2⟩ := by
    rw [convert_mono_self 2 2 (by norm_num)]
    norm_num
  have h2 : convertTimeToStreamPos ⟨4, 2⟩ 2 false = ⟨4, 2⟩ := by
    rw [convert_mono_self 4 2 (by norm_num)]
    norm_num
  have hcon : SubLooping.construct (listSource 2 false) ⟨[10, 20, 30, 40], 0, true, true⟩ 2
      ⟨2, 2⟩ ⟨4, 2⟩
      = ⟨⟨[10, 20, 30, 40], 0, true, true⟩, 2, 0, ⟨0, 2⟩, ⟨2, 2⟩, ⟨4, 2⟩⟩ := by
    simp [SubLooping.construct, listSource, h1, h2]
  have hInv : SubLoopingConsistent 2 2 4
      (⟨⟨[10, 20, 30, 40], 0, true, true⟩, 2, 0, ⟨0, 2⟩, ⟨2, 2⟩, ⟨4, 2⟩⟩ :
        SubLoopingState ListStream) := by
    refine ⟨?_, ?_, ?_, ?_, ?_, ?_, ?_, ?_, ?_⟩ <;> norm_num
  have hread := subLooping_boundary_step 2 2 4 (by norm_num)
    ⟨⟨[10, 20, 30, 40], 0, true, true⟩, 2, 0, ⟨0, 2⟩, ⟨2, 2⟩, ⟨4, 2⟩⟩ 4 hInv
    (by norm_num) (by norm_num) (by norm_num) (by norm_num [U32])
  rw [hcon]
  refine ⟨rfl, by norm_num [tsLt], ?_⟩
  rw [hread]
  decide

/-- Claim C4 (amended): for a `SubLoopingAudioStream` with `loopStart <
loopEnd` over a sufficiently long seekable parent, no read ever advances the
position past `loopEnd` (reads deliver only frames below `loopEnd`), but the
first iteration starts at parent position `0` — which may precede `loopStart`
— rather than inside `[loopStart, loopEnd)`; once the first iteration has
completed, the position never again precedes `loopStart`; and the read that
reaches `loopEnd` exactly, with loop budget remaining, resumes at parent
position `loopStart` for the samples that follow. -/
theorem spec_C4_amended (rate ls le : ℕ) (hrate : 0 < rate) :
    (∀ (data : List Int) (pos₀ loops : Nat) (ns : List Nat),
      ls < le → le ≤ data.length →
      SubLoopingConsistent rate ls le
        (SubLooping.run (listSource rate false)
          (SubLooping.construct (listSource rate false) ⟨data, pos₀, true, true⟩ loops
            ⟨(ls : ℚ), rate⟩ ⟨(le : ℚ), rate⟩) ns).2) ∧
    (∀ (st : SubLoopingState ListStream) (k : Nat),
      SubLoopingConsistent rate ls le st →
      ¬ (st.loops ≠ 0 ∧ st.completeIterations = st.loops) →
      st.s.pos + k = le → 1 ≤ k →
      (st.completeIterations + 1) % U32 ≠ st.loops →
      (SubLooping.readBuffer (listSource rate false) st k).1
          = (st.s.data.drop st.s.pos).take k ∧
      (SubLooping.readBuffer (listSource rate false) st k).2.s.pos = ls ∧
      (SubLooping.readBuffer (listSource rate false) st k).2.pos = ⟨(ls : ℚ), rate⟩) := by
  constructor
  · intro data pos₀ loops ns hlt hle
    exact subLooping_run_inv rate ls le hrate ns _
      (subLooping_construct_inv rate ls le hrate data pos₀ loops hlt hle)
  · intro st k hInv hg hb hk hz
    rw [subLooping_boundary_step rate ls le hrate st k hInv hg hb hk hz]
    exact ⟨rfl, rfl, rfl⟩

/-- Witness for C4 (amended): the whole-trace invariant for a concrete
four-sample stream read as 4 then 2 samples, and the boundary read of a state
sitting two frames before `loopEnd`, which resumes at `loopStart`. -/
theorem spec_C4_amended_witness :
    (0 < 2 ∧ 2 < 4 ∧ 4 ≤ ([10, 20, 30, 40] : List Int).length) ∧
    SubLoopingConsistent 2 2 4
      (SubLooping.run (listSource 2 false)
        (SubLooping.construct (listSource 2 false) ⟨[10, 20, 30, 40], 0, true, true⟩ 2
          ⟨((2 : ℕ) : ℚ), 2⟩ ⟨((4 : ℕ) : ℚ), 2⟩) [4, 2]).2 ∧
    ((SubLooping.readBuffer (listSource 2 false)
        ⟨⟨[10, 20, 30, 40], 2, true, true⟩, 0, 1, ⟨2, 2⟩, ⟨2, 2⟩, ⟨4, 2⟩⟩ 2).1
        = (([10, 20, 30, 40] : List Int).drop 2).take 2 ∧
      (SubLooping.readBuffer (listSource 2 false)
        ⟨⟨[10, 20, 30, 40], 2, true, true⟩, 0, 1, ⟨2, 2⟩, ⟨2, 2⟩, ⟨4, 2⟩⟩ 2).2.s.pos = 2 ∧
      (SubLooping.readBuffer (listSource 2 false)
        ⟨⟨[10, 20, 30, 40], 2, true, true⟩, 0, 1, ⟨2, 2⟩, ⟨2, 2⟩, ⟨4, 2⟩⟩ 2).2.pos
        = ⟨((2 : ℕ) : ℚ), 2⟩) :=
  have hInv : SubLoopingConsistent 2 2 4
      (⟨⟨[10, 20, 30, 40], 2, true, true⟩, 0, 1, ⟨2, 2⟩, ⟨2, 2⟩, ⟨4, 2⟩⟩ :
        SubLoopingState ListStream) := by
    refine ⟨?_, ?_, ?_, ?_, ?_, ?_, ?_, ?_, ?_⟩ <;> norm_num
  ⟨⟨by norm_num, by norm_num, by norm_num⟩,
    (spec_C4_amended 2 2 4 (by norm_num)).1 [10, 20, 30, 40] 0 2 [4, 2]
      (by norm_num) (by norm_num),
    (spec_C4_amended 2 2 4 (by norm_num)).2
      ⟨⟨[10, 20, 30, 40], 2, true, true⟩, 0, 1, ⟨2, 2⟩, ⟨2, 2⟩, ⟨4, 2⟩⟩ 2 hInv
      (by norm_num) (by norm_num) (by norm_num) (by norm_num [U32])⟩

/-- A queue read of zero samples returns nothing and leaves the state
unchanged, at any fuel. -/
lemma queuing_aux_zero {σ : Type} (ops : AudioSource σ) :
    ∀ (fuel : Nat) (st : QueuingState σ),
      QueuingImpl.readBufferAux ops fuel st 0 = ([], st) := by
  intro fuel st
  cases fuel with
  | zero => rfl
  | succ fuel =>
    simp only [QueuingImpl.readBufferAux]
    split
    · rfl
    · simp

/-- Taking `l₁.length + i` elements of `l₁ ++ l₂` takes all of `l₁` and `i`
elements of `l₂`. -/
lemma take_append_exact (l₁ l₂ : List Int) (i : ℕ) :
    (l₁ ++ l₂).take (l₁.length + i) = l₁ ++ l₂.take i := by
  induction l₁ with
  | nil => simp
  | cons a t ihp =>
    simp only [List.cons_append, List.length_cons]
    rw [show t.length + 1 + i = (t.length + i) + 1 by omega, List.take_succ_cons, ihp]

/-- Dropping `l₁.length + i` elements of `l₁ ++ l₂` drops all of `l₁` and `i`
elements of `l₂`. -/
lemma drop_append_exact (l₁ l₂ : List Int) (i : ℕ) :
    (l₁ ++ l₂).drop (l₁.length + i) = l₂.drop i := by
  induction l₁ with
  | nil => simp
  | cons a t ihp =>
    simp only [List.cons_append, List.length_cons]
    rw [show t.length + 1 + i = (t.length + i) + 1 by omega, List.drop_succ_cons, ihp]

lemma queuing_aux_spec (rate : ℕ) (stereo : Bool) :
    ∀ (fuel : Nat) (q : List (StreamHolder ChunkStream)) (fin : Bool) (n : Nat),
      (∀ h ∈ q, ∀ c ∈ h.stream.chunks, c ≠ []) →
      q.length + n + 1 ≤ fuel →
      QueueReadSpec q fin n
        (QueuingImpl.readBufferAux (chunkSource rate stereo) fuel ⟨q, fin⟩ n).1
        (QueuingImpl.readBufferAux (chunkSource rate stereo) fuel ⟨q, fin⟩ n).2 := by
  intro fuel
  induction fuel with
  | zero => intro q fin n _ hf; omega
  | succ fuel ih =>
    intro q fin n hwf hf
    match q with
    | [] =>
      have hres : QueuingImpl.readBufferAux (chunkSource rate stereo) (fuel + 1)
          ⟨[], fin⟩ n = ([], ⟨[], fin⟩) := rfl
      rw [hres]
      exact ⟨rfl, by simp, 0, 0, by simp, by simp, Or.inl ⟨rfl, rfl, rfl, rfl⟩,
        fun _ => Or.inl rfl⟩
    | h :: rest =>
      by_cases hn : n = 0
      · subst hn
        have hres := queuing_aux_zero (chunkSource rate stereo) (fuel + 1) ⟨h :: rest, fin⟩
        rw [hres]
        refine ⟨rfl, by simp, 0, 0, by simp, by simp,
          Or.inr ⟨h, rest, h.stream, rfl, by simp, rfl, by simp, rfl, by simp⟩,
          fun hx => absurd hx (by simp)⟩
      · have hlq : (h :: rest).length = rest.length + 1 := List.length_cons h rest
        have hwfr : ∀ x ∈ rest, ∀ c ∈ x.stream.chunks, c ≠ [] :=
          fun x hm => hwf x (List.mem_cons_of_mem _ hm)
        rcases hch : h.stream.chunks with _ | ⟨c, cs⟩
        · by_cases hcl : h.stream.closed = true
          · -- empty and closed: end-of-stream, pop and continue into the next stream
            have hres : QueuingImpl.readBufferAux (chunkSource rate stereo) (fuel + 1)
                ⟨h :: rest, fin⟩ n
                = QueuingImpl.readBufferAux (chunkSource rate stereo) fuel ⟨rest, fin⟩ n := by
              simp only [QueuingImpl.readBufferAux]
              rw [if_neg hn]
              simp [chunkSource, chunkRead, hch, hcl]
            rw [hres]
            obtain ⟨i1, i2, k', m', ik, icl, idisj, ishort⟩ :=
              ih rest fin n hwfr (by omega)
            refine ⟨i1, i2, k' + 1, m', by simp [hlq]; omega, ?_, ?_, ?_⟩
            · intro x hx
              rw [List.take_succ_cons] at hx
              rcases List.mem_cons.mp hx with hx | hx
              · rw [hx]; exact hcl
              · exact icl x hx
            · rcases idisj with ⟨hd, hm, hout, hqe⟩ | ⟨hq2, rq, s2, hdrop, hout, hqueue, hcont, hcl2, hm⟩
              · refine Or.inl ⟨by rw [List.drop_succ_cons]; exact hd, hm, ?_, hqe⟩
                rw [hout]
                simp [List.take_succ_cons, ChunkStream.content, hch]
              · refine Or.inr ⟨hq2, rq, s2, by rw [List.drop_succ_cons]; exact hdrop, ?_,
                  hqueue, hcont, hcl2, hm⟩
                rw [hout]
                simp [List.take_succ_cons, ChunkStream.content, hch]
            · exact ishort
          · -- empty but not closed: end-of-data, stop with the partial count
            have hclf : h.stream.closed = false := by
              cases hx : h.stream.closed
              · rfl
              · exact absurd hx hcl
            have hres : QueuingImpl.readBufferAux (chunkSource rate stereo) (fuel + 1)
                ⟨h :: rest, fin⟩ n
                = ([], ⟨⟨h.stream, h.disposeAfterUse⟩ :: rest, fin⟩) := by
              simp only [QueuingImpl.readBufferAux]
              rw [if_neg hn]
              simp [chunkSource, chunkRead, hch, hclf]
            rw [hres]
            refine ⟨rfl, by simp, 0, 0, by simp, by simp,
              Or.inr ⟨h, rest, h.stream, rfl, by simp, rfl, by simp, rfl, by simp⟩,
              fun _ => Or.inr ⟨h.stream, h.disposeAfterUse, rest, rfl, hch, hclf⟩⟩
        · have hcne : c ≠ [] := hwf h (by simp) c (by rw [hch]; simp)
          have hcpos : 1 ≤ c.length := List.length_pos.mpr hcne
          by_cases hlt : n < c.length
          · -- partial chunk: the front under-delivers but has more data
            have hmin : min n c.length = n := by omega
            have hres : QueuingImpl.readBufferAux (chunkSource rate stereo) (fuel + 1)
                ⟨h :: rest, fin⟩ n
                = (c.take n,
                  ⟨⟨⟨c.drop n :: cs, h.stream.closed⟩, h.disposeAfterUse⟩ :: rest, fin⟩) := by
              simp only [QueuingImpl.readBufferAux]
              rw [if_neg hn]
              simp [chunkSource, chunkRead, hch, hlt, List.length_take, hmin,
                queuing_aux_zero]
            rw [hres]
            refine ⟨rfl, by simp [List.length_take], 0, n, by simp, by simp,
              Or.inr ⟨h, rest, ⟨c.drop n :: cs, h.stream.closed⟩, rfl, ?_, rfl, ?_, rfl, ?_⟩,
              ?_⟩
            · simp [ChunkStream.content, hch,
                List.take_append_of_le_length (le_of_lt hlt)]
            · show ChunkStream.content ⟨c.drop n :: cs, h.stream.closed⟩
                = (ChunkStream.content h.stream).drop n
              simp [ChunkStream.content, hch,
                List.drop_append_of_le_length (le_of_lt hlt)]
            · simp [ChunkStream.content, hch]
              omega
            · intro hx
              exfalso
              simp [List.length_take] at hx
              omega
          · -- the whole chunk is consumed
            have hge : c.length ≤ n := by omega
            have htk : c.take n = c := List.take_of_length_le hge
            by_cases hcse : cs = []
            · by_cases hcl : h.stream.closed = true
              · -- last chunk of a closed stream: end-of-stream, pop and continue
                have hres : QueuingImpl.readBufferAux (chunkSource rate stereo) (fuel + 1)
                    ⟨h :: rest, fin⟩ n
                    = ((c ++ (QueuingImpl.readBufferAux (chunkSource rate stereo) fuel
                          ⟨rest, fin⟩ (n - c.length)).1),
                      (QueuingImpl.readBufferAux (chunkSource rate stereo) fuel
                          ⟨rest, fin⟩ (n - c.length)).2) := by
                  simp only [QueuingImpl.readBufferAux]
                  rw [if_neg hn]
                  simp [chunkSource, chunkRead, hch, hcse, Nat.not_lt.mpr hge, htk, hcl]
                rw [hres]
                obtain ⟨i1, i2, k', m', ik, icl, idisj, ishort⟩ :=
                  ih rest fin (n - c.length) hwfr (by omega)
                have hl1 : (c ++ (QueuingImpl.readBufferAux (chunkSource rate stereo) fuel
                    ⟨rest, fin⟩ (n - c.length)).1).length ≤ n := by
                  clear idisj ishort icl
                  rw [List.length_append]
                  omega
                have hl2 : k' + 1 ≤ (h :: rest).length := by
                  clear idisj ishort icl
                  rw [hlq]
                  omega
                refine ⟨i1, hl1, k' + 1, m', hl2, ?_, ?_, ?_⟩
                · intro x hx
                  rw [List.take_succ_cons] at hx
                  rcases List.mem_cons.mp hx with hx | hx
                  · rw [hx]; exact hcl
                  · exact icl x hx
                · rcases idisj with ⟨hd, hm, hout, hqe⟩ |
                    ⟨hq2, rq, s2, hdrop, hout, hqueue, hcont, hcl2, hm⟩
                  · refine Or.inl ⟨by rw [List.drop_succ_cons]; exact hd, hm, ?_, hqe⟩
                    rw [hout]
                    simp [List.take_succ_cons, ChunkStream.content, hch, hcse]
                  · refine Or.inr ⟨hq2, rq, s2, by rw [List.drop_succ_cons]; exact hdrop, ?_,
                      hqueue, hcont, hcl2, hm⟩
                    rw [hout]
                    simp [List.take_succ_cons, ChunkStream.content, hch, hcse]
                · intro hx
                  apply ishort
                  rw [List.length_append] at hx
                  clear idisj icl
                  omega
              · -- last chunk of a live stream: end-of-data, stop with partial count
                have hclf : h.stream.closed = false := by
                  cases hx : h.stream.closed
                  · rfl
                  · exact absurd hx hcl
                have hres : QueuingImpl.readBufferAux (chunkSource rate stereo) (fuel + 1)
                    ⟨h :: rest, fin⟩ n
                    = (c, ⟨⟨⟨[], false⟩, h.disposeAfterUse⟩ :: rest, fin⟩) := by
                  simp only [QueuingImpl.readBufferAux]
                  rw [if_neg hn]
                  simp [chunkSource, chunkRead, hch, hcse, Nat.not_lt.mpr hge, htk, hclf]
                rw [hres]
                refine ⟨rfl, hge, 0, c.length, by simp, by simp,
                  Or.inr ⟨h, rest, ⟨[], false⟩, rfl, ?_, rfl, ?_, by rw [hclf], ?_⟩,
                  fun _ => Or.inr ⟨⟨[], false⟩, h.disposeAfterUse, rest, rfl, rfl, rfl⟩⟩
                · simp [ChunkStream.content, hch, hcse]
                · simp [ChunkStream.content, hch, hcse]
                · simp [ChunkStream.content, hch, hcse]
            · -- more chunks remain: neither end-of-stream nor end-of-data, loop on
              have hwfq : ∀ x ∈ (⟨⟨cs, h.stream.closed⟩, h.disposeAfterUse⟩ :
                    StreamHolder ChunkStream) :: rest, ∀ cc ∈ x.stream.chunks, cc ≠ [] := by
                intro x hx cc hcc
                rcases List.mem_cons.mp hx with hx | hx
                · subst hx
                  exact hwf h (by simp) cc (by rw [hch]; exact List.mem_cons_of_mem _ hcc)
                · exact hwfr x hx cc hcc
              have hres : QueuingImpl.readBufferAux (chunkSource rate stereo) (fuel + 1)
                  ⟨h :: rest, fin⟩ n
                  = ((c ++ (QueuingImpl.readBufferAux (chunkSource rate stereo) fuel
                        ⟨⟨⟨cs, h.stream.closed⟩, h.disposeAfterUse⟩ :: rest, fin⟩
                        (n - c.length)).1),
                    (QueuingImpl.readBufferAux (chunkSource rate stereo) fuel
                        ⟨⟨⟨cs, h.stream.closed⟩, h.disposeAfterUse⟩ :: rest, fin⟩
                        (n - c.length)).2) := by
                simp only [QueuingImpl.readBufferAux]
                rw [if_neg hn]
                simp [chunkSource, chunkRead, hch, hcse, Nat.not_lt.mpr hge, htk]
              rw [hres]
              obtain ⟨i1, i2, k', m', ik, icl, idisj, ishort⟩ :=
                ih (⟨⟨cs, h.stream.closed⟩, h.disposeAfterUse⟩ :: rest) fin (n - c.length)
                  hwfq (by simp [List.length_cons]; omega)
              have hcc : ChunkStream.content h.stream
                  = c ++ ChunkStream.content ⟨cs, h.stream.closed⟩ := by
                simp [ChunkStream.content, hch]
              rcases k' with _ | k''
              · -- the recursive call stayed inside the surviving front stream
                rcases idisj with ⟨hd, _, _, _⟩ |
                    ⟨hq2, rq, s2, hdrop, hout, hqueue, hcont, hcl2, hm⟩
                · exact absurd hd (by simp)
                · rw [List.drop_zero] at hdrop
                  obtain ⟨he1, he2⟩ := List.cons_eq_cons.mp hdrop
                  subst he1
                  subst he2
                  refine ⟨i1, ?_, 0, c.length + m', by simp, by simp,
                    Or.inr ⟨h, rest, s2, rfl, ?_, hqueue, ?_, hcl2, ?_⟩, ?_⟩
                  · clear ishort icl
                    simp only [List.length_append]
                    omega
                  · rw [hout]
                    simp [ChunkStream.content, hch, take_append_exact]
                  · rw [hcc, drop_append_exact]
                    exact hcont
                  · clear ishort icl
                    have hm2 : m' ≤ (ChunkStream.content
                        ⟨cs, h.stream.closed⟩).length := hm
                    rw [hcc, List.length_append]
                    omega
                  · intro hx
                    simp only [List.length_append] at hx
                    apply ishort
                    clear ishort icl
                    omega
              · -- the recursive call also consumed whole queued streams
                have hclh : h.stream.closed = true :=
                  icl ⟨⟨cs, h.stream.closed⟩, h.disposeAfterUse⟩
                    (by rw [List.take_succ_cons]; exact List.mem_cons_self _ _)
                refine ⟨i1, ?_, k'' + 1, m', ?_, ?_, ?_, ?_⟩
                · clear idisj ishort icl
                  simp only [List.length_append]
                  omega
                · clear idisj ishort icl
                  simp only [List.length_cons] at ik ⊢
                  omega
                · intro x hx
                  rw [List.take_succ_cons] at hx
                  rcases List.mem_cons.mp hx with hx | hx
                  · rw [hx]; exact hclh
                  · exact icl x (by rw [List.take_succ_cons]; exact List.mem_cons_of_mem _ hx)
                · rcases idisj with ⟨hd, hm0, hout, hqe⟩ |
                      ⟨hq2, rq, s2, hdrop, hout, hqueue, hcont, hcl2, hm⟩
                  · refine Or.inl ⟨?_, hm0, ?_, hqe⟩
                    · rw [List.drop_succ_cons]
                      rw [List.drop_succ_cons] at hd
                      exact hd
                    · rw [hout]
                      simp [List.take_succ_cons, ChunkStream.content, hch]
                  · refine Or.inr ⟨hq2, rq, s2, ?_, ?_, hqueue, hcont, hcl2, hm⟩
                    · rw [List.drop_succ_cons]
                      rw [List.drop_succ_cons] at hdrop
                      exact hdrop
                    · rw [hout]
                      simp [List.take_succ_cons, ChunkStream.content, hch]
                · intro hx
                  simp only [List.length_append] at hx
                  apply ishort
                  clear idisj ishort icl
                  omega
          

/-- C2: a `QueuingAudioStreamImpl::readBuffer` call serves queued streams
strictly in FIFO order: it consumes some prefix of whole queued streams,
popping each only after it reports end-of-stream, then takes samples from the
new front stream; it never delivers more than requested, and it stops short of
the request only because the queue is empty or the front stream hit
end-of-data without end-of-stream. -/
theorem spec_C2 (rate : ℕ) (stereo : Bool) (q : List (StreamHolder ChunkStream))
    (fin : Bool) (n : ℕ)
    (hwf : ∀ h ∈ q, ∀ c ∈ h.stream.chunks, c ≠ []) :
    QueueReadSpec q fin n
      (QueuingImpl.readBuffer (chunkSource rate stereo) ⟨q, fin⟩ n).1
      (QueuingImpl.readBuffer (chunkSource rate stereo) ⟨q, fin⟩ n).2 :=
  queuing_aux_spec rate stereo (q.length + n + 1) q fin n hwf (Nat.le_refl _)

/-- Witness for C2 on a concrete queue: a closed two-chunk stream followed by
a still-open one-chunk stream. -/
theorem spec_C2_witness :
    (∀ h ∈ ([⟨⟨[[1, 2], [3]], true⟩, true⟩, ⟨⟨[[4, 5]], false⟩, false⟩] :
        List (StreamHolder ChunkStream)), ∀ c ∈ h.stream.chunks, c ≠ []) ∧
    QueueReadSpec [⟨⟨[[1, 2], [3]], true⟩, true⟩, ⟨⟨[[4, 5]], false⟩, false⟩]
      false 10
      (QueuingImpl.readBuffer (chunkSource 44100 false)
        ⟨[⟨⟨[[1, 2], [3]], true⟩, true⟩, ⟨⟨[[4, 5]], false⟩, false⟩], false⟩ 10).1
      (QueuingImpl.readBuffer (chunkSource 44100 false)
        ⟨[⟨⟨[[1, 2], [3]], true⟩, true⟩, ⟨⟨[[4, 5]], false⟩, false⟩], false⟩ 10).2 :=
  ⟨by decide, spec_C2 44100 false
    [⟨⟨[[1, 2], [3]], true⟩, true⟩, ⟨⟨[[4, 5]], false⟩, false⟩] false 10 (by decide)⟩

end ScummVM.Audio
